import Mathlib

/-!
# hermina: configuration loading, bootstrap and supervised shutdown

A shallow embedding of `config.go`, `cmd/main.go` and `pkg/session/interceptor.go`.

* Go's `(T, error)` results are pairs `T × Option Error`; `none` is the nil error.
* Calls into code that is not part of these three files (the `env` library, `pkg/tls`,
  `http.NewProxy`, `godotenv.Load`) are taken as parameters, bundled in `Lib`.
* The concurrent part of `main` (the errgroup, its tasks, the signal channel) is a
  deterministic step function over explicit events; an event list is one interleaving.
-/

namespace Hermina

/-! ## config.go -/

/-- A Go `error` value; the nil error is `none : Option Error`. -/
structure Error where
  msg : String
deriving DecidableEq, Repr

/-- A `*tls.Config` value, identified by a handle; the nil pointer is `none`. -/
structure TlsConfig where
  handle : Nat
deriving DecidableEq, Repr

/-- The settings value returned by `mptls.NewConfig`, identified by a handle. -/
structure MpTlsConfig where
  handle : Nat
deriving DecidableEq, Repr

/-- The `Config` struct of config.go. -/
structure Config where
  Address : String
  PathPrefix : String
  Target : String
  TLSConfig : Option TlsConfig
deriving DecidableEq, Repr

/-- The Go zero value `Config{}`. -/
def Config.zero : Config := ⟨"", "", "", none⟩

/-- The environment a parse reads: variable name to value, `none` when the variable is
not defined. -/
abbrev Environment := String → Option String

/-- The fields of `env.Options` that the program sets or relies on: the key `Prefix`,
and the environment the parse reads (the process environment when `main` leaves
`Options.Environment` nil). -/
structure Options where
  Prefix : String
  Environment : Environment

/-- Lookup rule of the `env` library (v11) for a field that carries an `envDefault` tag:
an undefined variable yields the default, a variable defined as the empty string also
yields the default, any other value is taken as it is. -/
def getOr (key defaultValue : String) (envs : Environment) : String :=
  match envs key with
  | none => defaultValue
  | some value => if value = "" then defaultValue else value

/-- How the `env` library stores a looked-up value in a string field: an empty value
leaves the field as it was. -/
def setField (field value : String) : String :=
  if value = "" then field else value

/-- What `env.ParseWithOptions(&c, opts)` does on a `Config`, read off the struct tags
`env:"ADDRESS" envDefault:""`, `env:"PATH_PREFIX" envDefault:"/"` and
`env:"TARGET" envDefault:""`. The three string fields cannot fail to parse. The untagged
`TLSConfig` field is looked up under the bare prefix: a non-empty variable of that name
has no parser for a `*tls.Config` and makes the parse fail, after the string fields were
written; otherwise the pointer is left alone. -/
def ParseWithOptions (c : Config) (opts : Options) : Config × Option Error :=
  ({ c with
      Address := setField c.Address (getOr (opts.Prefix ++ "ADDRESS") "" opts.Environment)
      PathPrefix :=
        setField c.PathPrefix (getOr (opts.Prefix ++ "PATH_PREFIX") "/" opts.Environment)
      Target := setField c.Target (getOr (opts.Prefix ++ "TARGET") "" opts.Environment) },
    match opts.Environment opts.Prefix with
    | none => none
    | some value =>
      if value = "" then none else some ⟨"env: no parser found for field TLSConfig"⟩)

/-- The functions `NewConfig` and `main` call that live outside the three source files. -/
structure Lib where
  /-- The call `env.ParseWithOptions(&c, opts)`: the struct as the parse left it, and the error. -/
  ParseWithOptions : Config → Options → Config × Option Error
  /-- The call `mptls.NewConfig(opts)`. -/
  tlsNewConfig : Options → MpTlsConfig × Option Error
  /-- The call `mptls.Load(&cfg)`. -/
  tlsLoad : MpTlsConfig → Option TlsConfig × Option Error
  /-- The call `http.NewProxy(config, handler, logger)`: only its error matters here. -/
  NewProxy : Config → Option Error

/-- `NewConfig` of config.go. -/
def NewConfig (L : Lib) (opts : Options) : Config × Option Error :=
  let c := Config.zero
  match L.ParseWithOptions c opts with
  | (_, some err) => (Config.zero, some err)
  | (c, none) =>
    match L.tlsNewConfig opts with
    | (_, some err) => (Config.zero, some err)
    | (cfg, none) =>
      match L.tlsLoad cfg with
      | (_, some err) => (Config.zero, some err)
      | (t, none) => ({ c with TLSConfig := t }, none)

/-- Modelled from the spec: `pkg/tls` is not among the sources. §4.1: the operating mode is
selected by which inputs are present, and in plaintext mode no TLS config is produced and
nothing fails. This is the terminator on an environment without certificate inputs, with
the `env` parse of `ParseWithOptions` and a proxy constructor that accepts every Config. -/
def plaintextLib : Lib :=
  { ParseWithOptions := ParseWithOptions
    tlsNewConfig := fun _ => (⟨0⟩, none)
    tlsLoad := fun _ => (none, none)
    NewProxy := fun _ => none }

/-! ## cmd/main.go: constants -/

def mqttWithoutTLS : String := "HERMINA_MQTT_WITHOUT_TLS_"
def mqttWithTLS : String := "HERMINA_MQTT_WITH_TLS_"
def mqttWithmTLS : String := "HERMINA_MQTT_WITH_MTLS_"

def mqttWSWithoutTLS : String := "HERMINA_MQTT_WS_WITHOUT_TLS_"
def mqttWSWithTLS : String := "HERMINA_MQTT_WS_WITH_TLS_"
def mqttWSWithmTLS : String := "HERMINA_MQTT_WS_WITH_MTLS_"

def httpWithoutTLS : String := "HERMINA_HTTP_WITHOUT_TLS_"
def httpWithTLS : String := "HERMINA_HTTP_WITH_TLS_"
def httpWithmTLS : String := "HERMINA_HTTP_WITH_MTLS_"

/-- The nine environment prefixes, in the order `main` uses them. -/
def envPrefixes : List String :=
  [mqttWithoutTLS, mqttWithTLS, mqttWithmTLS,
   mqttWSWithoutTLS, mqttWSWithTLS, mqttWSWithmTLS,
   httpWithoutTLS, httpWithTLS, httpWithmTLS]

/-! ## cmd/main.go: bootstrap -/

/-- The two contexts of `main`: `root` is the one made by `context.WithCancel` on line 37,
`group` the one `errgroup.WithContext` derives from it on line 38. -/
inductive Ctx where
  | root
  | group
deriving DecidableEq, Repr

/-- Which constructor built a listener: `mqtt.New`, `websocket.New` or `http.NewProxy`. -/
inductive Kind where
  | mqtt
  | websocket
  | http
deriving DecidableEq, Repr

/-- A function handed to `g.Go`: a listener's `Listen(ctx)` (with the constructor and the
Config it was built from) or `StopSignalHandler(ctx, cancel, logger)`, where `cancel`
names the context whose CancelFunc is passed. -/
inductive Task where
  | Listen (kind : Kind) (config : Config) (ctx : Ctx)
  | StopSignalHandler (ctx : Ctx) (cancel : Ctx)
deriving DecidableEq, Repr

/-- How the straight-line part of `main` (lines 36 to 174) ends: a `panic(err)` with the
tasks handed to `g.Go` before it, or all tasks registered and `g.Wait()` reached. -/
inductive Boot where
  | panic (err : Error) (started : List Task)
  | running (g : List Task)
deriving DecidableEq, Repr

/-- Lines 36 to 174 of `main`. `godotenvLoad` is the error of `godotenv.Load()` and
`environ` the process environment after it. The variable `ctx` is reassigned on line 38,
so every closure captures the group context, while `cancel` stays the root CancelFunc. -/
def main (L : Lib) (godotenvLoad : Option Error) (environ : Environment) : Boot :=
  let cancel := Ctx.root
  let ctx := Ctx.group
  let g : List Task := []
  match godotenvLoad with
  | some err => .panic err g
  | none =>
  match NewConfig L ⟨mqttWithoutTLS, environ⟩ with
  | (_, some err) => .panic err g
  | (mqttConfig, none) =>
  let g := g ++ [Task.Listen .mqtt mqttConfig ctx]
  match NewConfig L ⟨mqttWithTLS, environ⟩ with
  | (_, some err) => .panic err g
  | (mqttTLSConfig, none) =>
  let g := g ++ [Task.Listen .mqtt mqttTLSConfig ctx]
  match NewConfig L ⟨mqttWithmTLS, environ⟩ with
  | (_, some err) => .panic err g
  | (mqttMTLSConfig, none) =>
  let g := g ++ [Task.Listen .mqtt mqttMTLSConfig ctx]
  match NewConfig L ⟨mqttWSWithoutTLS, environ⟩ with
  | (_, some err) => .panic err g
  | (wsConfig, none) =>
  let g := g ++ [Task.Listen .websocket wsConfig ctx]
  match NewConfig L ⟨mqttWSWithTLS, environ⟩ with
  | (_, some err) => .panic err g
  | (wsTLSConfig, none) =>
  let g := g ++ [Task.Listen .websocket wsTLSConfig ctx]
  match NewConfig L ⟨mqttWSWithmTLS, environ⟩ with
  | (_, some err) => .panic err g
  | (wsMTLSConfig, none) =>
  let g := g ++ [Task.Listen .websocket wsMTLSConfig ctx]
  match NewConfig L ⟨httpWithoutTLS, environ⟩ with
  | (_, some err) => .panic err g
  | (httpConfig, none) =>
  match L.NewProxy httpConfig with
  | some err => .panic err g
  | none =>
  let g := g ++ [Task.Listen .http httpConfig ctx]
  match NewConfig L ⟨httpWithTLS, environ⟩ with
  | (_, some err) => .panic err g
  | (httpTLSConfig, none) =>
  match L.NewProxy httpTLSConfig with
  | some err => .panic err g
  | none =>
  let g := g ++ [Task.Listen .http httpTLSConfig ctx]
  match NewConfig L ⟨httpWithmTLS, environ⟩ with
  | (_, some err) => .panic err g
  | (httpMTLSConfig, none) =>
  match L.NewProxy httpMTLSConfig with
  | some err => .panic err g
  | none =>
  let g := g ++ [Task.Listen .http httpMTLSConfig ctx]
  let g := g ++ [Task.StopSignalHandler ctx cancel]
  .running g

/-- One listener slot of `main`: the constructor used and the environment prefix. -/
structure Slot where
  kind : Kind
  envPrefix : String
deriving DecidableEq, Repr

/-- The nine slots in program order. -/
def slots : List Slot :=
  [⟨.mqtt, mqttWithoutTLS⟩, ⟨.mqtt, mqttWithTLS⟩, ⟨.mqtt, mqttWithmTLS⟩,
   ⟨.websocket, mqttWSWithoutTLS⟩, ⟨.websocket, mqttWSWithTLS⟩, ⟨.websocket, mqttWSWithmTLS⟩,
   ⟨.http, httpWithoutTLS⟩, ⟨.http, httpWithTLS⟩, ⟨.http, httpWithmTLS⟩]

/-- One block of `main` for a slot, as a function: load the Config, build the listener
(only `http.NewProxy` can fail), and give the task that `g.Go` receives. -/
def startSlot (L : Lib) (environ : Environment) (s : Slot) : Except Error Task :=
  match NewConfig L ⟨s.envPrefix, environ⟩ with
  | (_, some err) => .error err
  | (config, none) =>
    match s.kind with
    | .http =>
      match L.NewProxy config with
      | some err => .error err
      | none => .ok (Task.Listen .http config .group)
    | k => .ok (Task.Listen k config .group)

/-- The blocks of `main` run in sequence over a list of slots, `g` being the tasks
registered so far; `main_eq_startAll` shows `main` is this on `slots`. -/
def startAll (L : Lib) (environ : Environment) : List Slot → List Task → Boot
  | [], g => .running (g ++ [Task.StopSignalHandler .group .root])
  | s :: rest, g =>
    match startSlot L environ s with
    | .error err => .panic err g
    | .ok t => startAll L environ rest (g ++ [t])

/-- The error that ends a slot's block, if any: the one of `NewConfig`, else for an HTTP
slot the one of `http.NewProxy`. -/
def slotError (L : Lib) (environ : Environment) (s : Slot) : Option Error :=
  match NewConfig L ⟨s.envPrefix, environ⟩ with
  | (_, some err) => some err
  | (config, none) => if s.kind = .http then L.NewProxy config else none

/-- The task a slot's block registers when it does not fail: the listener of the slot's
kind, built from the Config loaded under the slot's own prefix, listening on the group
context. -/
def slotTask (L : Lib) (environ : Environment) (s : Slot) : Task :=
  Task.Listen s.kind (NewConfig L ⟨s.envPrefix, environ⟩).1 .group

/-- An environment that defines no variable at all. -/
def noEnv : Environment := fun _ => none

/-- An environment whose only variable is the HTTP path prefix, defined as the empty string. -/
def emptyPathEnv : Environment :=
  fun k => if k = "HERMINA_HTTP_WITHOUT_TLS_PATH_PREFIX" then some "" else none

/-- An environment that defines address, path prefix and target of the plain HTTP slot. -/
def sampleEnv : Environment :=
  fun k =>
    if k = "HERMINA_HTTP_WITHOUT_TLS_ADDRESS" then some ":8086"
    else if k = "HERMINA_HTTP_WITHOUT_TLS_PATH_PREFIX" then some "/messages"
    else if k = "HERMINA_HTTP_WITHOUT_TLS_TARGET" then some "http://localhost:8888/"
    else none

/-- As `plaintextLib`, but `http.NewProxy` rejects every Config. -/
def rejectingProxyLib : Lib :=
  { plaintextLib with NewProxy := fun _ => some ⟨"invalid target"⟩ }

/-- As `plaintextLib`, but `mptls.NewConfig` fails under the prefix `bad`. -/
def failingSlotLib (bad : String) : Lib :=
  { plaintextLib with
    tlsNewConfig := fun opts =>
      if opts.Prefix = bad then (⟨0⟩, some ⟨"tls settings"⟩) else (⟨0⟩, none) }

/-- As `plaintextLib`, but `mptls.Load` fails. -/
def failingLoadLib : Lib :=
  { plaintextLib with tlsLoad := fun _ => (none, some ⟨"certificate"⟩) }

/-- The ten tasks `main` registers when no variable is defined: nine listeners built
from the default Config, and `StopSignalHandler`. -/
def defaultTasks : List Task :=
  [Task.Listen .mqtt ⟨"", "/", "", none⟩ .group,
   Task.Listen .mqtt ⟨"", "/", "", none⟩ .group,
   Task.Listen .mqtt ⟨"", "/", "", none⟩ .group,
   Task.Listen .websocket ⟨"", "/", "", none⟩ .group,
   Task.Listen .websocket ⟨"", "/", "", none⟩ .group,
   Task.Listen .websocket ⟨"", "/", "", none⟩ .group,
   Task.Listen .http ⟨"", "/", "", none⟩ .group,
   Task.Listen .http ⟨"", "/", "", none⟩ .group,
   Task.Listen .http ⟨"", "/", "", none⟩ .group,
   Task.StopSignalHandler .group .root]

/-- The tasks handed to `g.Go` in a run of the bootstrap, whichever way it ended. -/
def Boot.started : Boot → List Task
  | .panic _ started => started
  | .running g => g

/-! ## cmd/main.go: the supervised run -/

/-- The two signals `StopSignalHandler` subscribes to. -/
inductive Signal where
  | SIGINT
  | SIGABRT
deriving DecidableEq, Repr

/-- A line written through the logger. -/
inductive LogLine where
  | Error (msg : String)
  | Info (msg : String)
deriving DecidableEq, Repr

/-- The state of the process once `g.Wait()` is reached.
`rootCancelled`: the root CancelFunc has been called; `groupCancelled`: the errgroup has
cancelled its derived context; `err`: the errgroup's recorded error; `cancelCalls`: how
often the root CancelFunc was called; `c`: the buffered signal channel (capacity 2);
`tasks`: every registered task with its return value once it has returned; `returns`:
the task returns in the order they happened; `log`: what `main` has logged after `Wait`. -/
structure Sys where
  rootCancelled : Bool
  groupCancelled : Bool
  err : Option Error
  cancelCalls : Nat
  c : List Signal
  tasks : List (Task × Option (Option Error))
  returns : List (Nat × Option Error)
  log : List LogLine
deriving DecidableEq, Repr

/-- The state in which the tasks `g` have all been registered and none has returned. -/
def Sys.start (g : List Task) : Sys :=
  { rootCancelled := false, groupCancelled := false, err := none, cancelCalls := 0,
    c := [], tasks := g.map (fun t => (t, none)), returns := [], log := [] }

/-- Whether `<-ctx.Done()` is ready: the group context is derived from the root, so it
is done when either was cancelled. -/
def Sys.done (s : Sys) : Ctx → Bool
  | .root => s.rootCancelled
  | .group => s.rootCancelled || s.groupCancelled

/-- A call of the CancelFunc of a context; calls of the root one are counted. -/
def Sys.cancel (s : Sys) : Ctx → Sys
  | .root => { s with rootCancelled := true, cancelCalls := s.cancelCalls + 1 }
  | .group => { s with groupCancelled := true }

/-- Task `i` returns `r` inside the goroutine `g.Go` started: the first non-nil error is
recorded once and cancels the group context. -/
def Sys.taskReturn (s : Sys) (i : Nat) (t : Task) (r : Option Error) : Sys :=
  let s := { s with tasks := s.tasks.set i (t, some r), returns := s.returns ++ [(i, r)] }
  match r with
  | none => s
  | some e =>
    match s.err with
    | some _ => s
    | none => { s with err := some e, groupCancelled := true }

/-- Every registered task has returned. -/
def Sys.allReturned (s : Sys) : Bool :=
  s.tasks.all (fun t => t.2.isSome)

/-- The status line `main` logs after `g.Wait()` (lines 176 to 180). -/
def terminalLine : Option Error → LogLine
  | some err => .Error ("hermina service terminated with error: " ++ err.msg)
  | none => .Info "hermina service stopped"

/-- What can happen next.
`signal`: the OS delivers a subscribed signal. `handlerSelect i preferSignal`: the
`select` of the StopSignalHandler at index `i` runs, `preferSignal` being Go's choice when
both cases are ready. `listenFail i err`: listener `i` returns a non-nil error.
`listenCancelled i`: listener `i` observes its cancelled context and returns nil.
`wait`: `g.Wait()` returns in `main`, which logs the status line. -/
inductive Event where
  | signal (sig : Signal)
  | handlerSelect (i : Nat) (preferSignal : Bool)
  | listenFail (i : Nat) (err : Error)
  | listenCancelled (i : Nat)
  | wait
deriving DecidableEq, Repr

/-- `StopSignalHandler` (lines 183 to 193) for the task at index `i`: blocked while
neither case is ready, else `cancel()` and `return nil` on a signal, `return nil` on
`ctx.Done()`. -/
def StopSignalHandler (s : Sys) (i : Nat) (ctx cancel : Ctx) (preferSignal : Bool) : Sys :=
  match s.c, s.done ctx with
  | [], false => s
  | [], true => s.taskReturn i (Task.StopSignalHandler ctx cancel) none
  | _ :: rest, false =>
    (({ s with c := rest }).cancel cancel).taskReturn i (Task.StopSignalHandler ctx cancel) none
  | _ :: rest, true =>
    if preferSignal then
      (({ s with c := rest }).cancel cancel).taskReturn i (Task.StopSignalHandler ctx cancel) none
    else
      s.taskReturn i (Task.StopSignalHandler ctx cancel) none

/-- Modelled from the spec: the listeners' `Listen` is not among the sources. §4.2: it
ends with an error when its listening socket is unusable, and it returns promptly with
no error once `ctx` is cancelled; `err = none` is that second return, possible only when
the listener's context is done. -/
def Listen (s : Sys) (i : Nat) (err : Option Error) : Sys :=
  match s.tasks[i]? with
  | some (Task.Listen kind config ctx, none) =>
    match err with
    | some e => s.taskReturn i (Task.Listen kind config ctx) (some e)
    | none => if s.done ctx then s.taskReturn i (Task.Listen kind config ctx) none else s
  | _ => s

/-- One event applied to a state; an event that is not enabled leaves it unchanged.
A signal that finds the channel full is dropped. `g.Wait()` returns only when every
task has returned; it cancels the group context and hands `main` the recorded error. -/
def step (s : Sys) : Event → Sys
  | .signal sig => if s.c.length < 2 then { s with c := s.c ++ [sig] } else s
  | .handlerSelect i preferSignal =>
    match s.tasks[i]? with
    | some (Task.StopSignalHandler ctx cancel, none) => StopSignalHandler s i ctx cancel preferSignal
    | _ => s
  | .listenFail i err => Listen s i (some err)
  | .listenCancelled i => Listen s i none
  | .wait =>
    if s.allReturned && s.log.isEmpty then
      { s with groupCancelled := true, log := [terminalLine s.err] }
    else s

/-- A run: the events of one interleaving applied in order. -/
def run (s : Sys) (events : List Event) : Sys :=
  events.foldl step s

/-- The first non-nil error among task returns listed in the order they happened. -/
def firstError : List (Nat × Option Error) → Option Error
  | [] => none
  | (_, some e) :: _ => some e
  | (_, none) :: rest => firstError rest

/-- Whether an event is the delivery of a signal. -/
def Event.isSignal : Event → Bool
  | .signal _ => true
  | _ => false

/-- The events of a shutdown once the group context is done: each of the nine listeners
observes the cancellation and returns, the `select` of `StopSignalHandler` runs, and
`g.Wait()` returns. -/
def shutdownEvents : List Event :=
  (List.range 9).map Event.listenCancelled ++ [Event.handlerSelect 9 false, Event.wait]

/-- What every state of a run from `Sys.start g` satisfies. -/
structure Inv (g : List Task) (s : Sys) : Prop where
  fst : s.tasks.map Prod.fst = g
  err : s.err = firstError s.returns
  errs : ∀ (i : Nat) (e : Error), (i, some e) ∈ s.returns →
    ∃ k c ctx, g[i]? = some (Task.Listen k c ctx)
  log : s.log = [] ∨ (s.allReturned = true ∧ s.log = [terminalLine (firstError s.returns)])
  nil : ∀ (i : Nat) (ctx cancel : Ctx) (r : Option Error),
    s.tasks[i]? = some (Task.StopSignalHandler ctx cancel, some r) → r = none
  grp : s.err ≠ none → s.groupCancelled = true
  root : 0 < s.cancelCalls → s.rootCancelled = true

/-- The shape of the task list `main` registers: nine listeners on the group context at
indices 0 to 8 and the `StopSignalHandler` at index 9. -/
def Shape (g : List Task) : Prop :=
  g.length = 10 ∧ g[9]? = some (Task.StopSignalHandler .group .root) ∧
    ∀ i, i < 9 → ∃ k c, g[i]? = some (Task.Listen k c .group)

/-- A run in which listener 3 and then listener 7 fail, followed by the shutdown. -/
def failingRun : List Event :=
  Event.listenFail 3 ⟨"bind"⟩ :: Event.listenFail 7 ⟨"accept"⟩ :: shutdownEvents

/-- A run with a race at the handler's `select`: a signal is delivered, listener 3 fails,
and the `select` then takes `ctx.Done()`. -/
def raceRun : List Event :=
  [Event.signal .SIGINT, Event.listenFail 3 ⟨"bind"⟩, Event.handlerSelect 9 false]

/-! ## pkg/session: the interception hook -/

/-- The `Direction` passed to `Intercept`. -/
inductive Direction where
  | Upstream
  | Downstream
deriving DecidableEq, Repr

/-- The `Interceptor` interface over packets of type `P`: `Intercept(ctx, pkt, dir)`
returns a packet (nil is `none`) and an error. -/
abbrev Interceptor (P : Type) := P → Direction → Option P × Option Error

/-- Modelled from the spec: the directional pump of the relay engine (`pkg/session`, of
which only the Interceptor interface is among the sources). §4.3 and §6: per decoded
packet, in order, the pump calls the Interceptor; a returned packet with no error is
encoded and written to the destination; an error drops the packet, and the Session
either goes on with the next packet (`continueOnVeto`, the default) or ends with that
error. A nil packet with a nil error, about which the spec is silent, writes nothing.
The result is the destination's byte stream and the error the pump ended with. -/
def pump {P : Type} (continueOnVeto : Bool) (encode : P → List Nat) (ic : Interceptor P)
    (dir : Direction) : List P → List Nat → List Nat × Option Error
  | [], dest => (dest, none)
  | pkt :: rest, dest =>
    match ic pkt dir with
    | (_, some err) =>
      if continueOnVeto then pump continueOnVeto encode ic dir rest dest else (dest, some err)
    | (some out, none) => pump continueOnVeto encode ic dir rest (dest ++ encode out)
    | (none, none) => pump continueOnVeto encode ic dir rest dest

/-- An interceptor on numbered packets: it vetoes odd ones and rewrites even ones to
their successor. -/
def vetoOdd : Interceptor Nat :=
  fun n _ => if n % 2 = 1 then (some n, some ⟨"odd"⟩) else (some (n + 1), none)

/-! ## Configuration: theorems -/

theorem string_append_ne (p1 p2 s1 s2 : String) (h1 : ¬ (p1.data <+: p2.data))
    (h2 : ¬ (p2.data <+: p1.data)) : p1 ++ s1 ≠ p2 ++ s2 := by
  intro h
  have hd : p1.data ++ s1.data = p2.data ++ s2.data := by
    have := congrArg String.data h
    simpa using this
  have a : p1.data <+: p2.data ++ s2.data := ⟨s1.data, hd⟩
  have b : p2.data <+: p2.data ++ s2.data := ⟨s2.data, rfl⟩
  rcases List.prefix_or_prefix_of_prefix a b with h | h
  · exact h1 h
  · exact h2 h

theorem envPrefixes_no_prefix :
    ∀ p1 ∈ envPrefixes, ∀ p2 ∈ envPrefixes, p1 ≠ p2 → ¬ (p1.data <+: p2.data) := by
  decide

/-- C10: the nine listener prefixes that `main` uses are pairwise distinct, none is a
string prefix of another, and so a name built from one prefix and any suffix differs
from every name built from another prefix. -/
theorem envPrefixes_disjoint :
    slots.map Slot.envPrefix = envPrefixes ∧ envPrefixes.length = 9 ∧ envPrefixes.Nodup ∧
    ∀ p1 ∈ envPrefixes, ∀ p2 ∈ envPrefixes, p1 ≠ p2 →
      ¬ (p1.data <+: p2.data) ∧ ∀ s1 s2 : String, p1 ++ s1 ≠ p2 ++ s2 := by
  refine ⟨by decide, by decide, by decide, ?_⟩
  intro p1 h1 p2 h2 hne
  have a := envPrefixes_no_prefix p1 h1 p2 h2 hne
  have b := envPrefixes_no_prefix p2 h2 p1 h1 (fun h => hne h.symm)
  exact ⟨a, fun s1 s2 => string_append_ne p1 p2 s1 s2 a b⟩

theorem envPrefixes_disjoint_witness :
    mqttWithTLS ∈ envPrefixes ∧ mqttWSWithTLS ∈ envPrefixes ∧ mqttWithTLS ≠ mqttWSWithTLS ∧
    mqttWithTLS ++ "ADDRESS" ≠ mqttWSWithTLS ++ "ADDRESS" :=
  ⟨by decide, by decide, by decide,
    (envPrefixes_disjoint.2.2.2 mqttWithTLS (by decide) mqttWSWithTLS (by decide)
      (by decide)).2 "ADDRESS" "ADDRESS"⟩

/-- C9: `NewConfig` is all-or-nothing. With an error it returns the zero Config, whatever
the parse had already written; the error is that of the first failing step in the order
environment parse, TLS settings, TLS load; the error is nil exactly when all three steps
succeed, and then the Config is the parsed one with `TLSConfig` set to what the load
step produced. -/
theorem NewConfig_all_or_nothing (L : Lib) (opts : Options) :
    (∀ e, (NewConfig L opts).2 = some e → (NewConfig L opts).1 = Config.zero) ∧
    (∀ e, (L.ParseWithOptions Config.zero opts).2 = some e → (NewConfig L opts).2 = some e) ∧
    (∀ e, (L.ParseWithOptions Config.zero opts).2 = none → (L.tlsNewConfig opts).2 = some e →
      (NewConfig L opts).2 = some e) ∧
    (∀ e, (L.ParseWithOptions Config.zero opts).2 = none → (L.tlsNewConfig opts).2 = none →
      (L.tlsLoad (L.tlsNewConfig opts).1).2 = some e → (NewConfig L opts).2 = some e) ∧
    ((NewConfig L opts).2 = none ↔
      (L.ParseWithOptions Config.zero opts).2 = none ∧ (L.tlsNewConfig opts).2 = none ∧
        (L.tlsLoad (L.tlsNewConfig opts).1).2 = none) ∧
    ((NewConfig L opts).2 = none →
      (NewConfig L opts).1 =
        { (L.ParseWithOptions Config.zero opts).1 with
          TLSConfig := (L.tlsLoad (L.tlsNewConfig opts).1).1 }) := by
  rcases hp : L.ParseWithOptions Config.zero opts with ⟨c, _ | e1⟩ <;>
  rcases hn : L.tlsNewConfig opts with ⟨cfg, _ | e2⟩ <;>
  rcases hl : L.tlsLoad cfg with ⟨t, _ | e3⟩ <;> simp [NewConfig, hp, hn, hl]

theorem NewConfig_all_or_nothing_witness :
    (NewConfig failingLoadLib ⟨httpWithoutTLS, sampleEnv⟩).2 = some ⟨"certificate"⟩ ∧
    (failingLoadLib.ParseWithOptions Config.zero ⟨httpWithoutTLS, sampleEnv⟩).1.Address = ":8086" ∧
    (NewConfig failingLoadLib ⟨httpWithoutTLS, sampleEnv⟩).1 = Config.zero :=
  ⟨by decide, by decide,
    (NewConfig_all_or_nothing failingLoadLib ⟨httpWithoutTLS, sampleEnv⟩).1 ⟨"certificate"⟩
      (by decide)⟩

theorem setField_empty (value : String) : setField "" value = value := by
  unfold setField
  split
  · next h => exact h.symm
  · rfl

theorem ParseWithOptions_zero (opts : Options) :
    (ParseWithOptions Config.zero opts).1 =
      ⟨getOr (opts.Prefix ++ "ADDRESS") "" opts.Environment,
       getOr (opts.Prefix ++ "PATH_PREFIX") "/" opts.Environment,
       getOr (opts.Prefix ++ "TARGET") "" opts.Environment, none⟩ := by
  simp only [ParseWithOptions, Config.zero, setField_empty]

theorem NewConfig_fields (tn : Options → MpTlsConfig × Option Error)
    (tl : MpTlsConfig → Option TlsConfig × Option Error) (np : Config → Option Error)
    (opts : Options) (c : Config) (h : NewConfig ⟨ParseWithOptions, tn, tl, np⟩ opts = (c, none)) :
    c.Address = getOr (opts.Prefix ++ "ADDRESS") "" opts.Environment ∧
    c.PathPrefix = getOr (opts.Prefix ++ "PATH_PREFIX") "/" opts.Environment ∧
    c.Target = getOr (opts.Prefix ++ "TARGET") "" opts.Environment := by
  have hz := ParseWithOptions_zero opts
  rcases hp : ParseWithOptions Config.zero opts with ⟨c0, _ | e1⟩ <;>
  rcases hn : tn opts with ⟨cfg, _ | e2⟩ <;>
  rcases hl : tl cfg with ⟨t, _ | e3⟩ <;>
  simp only [NewConfig, hp, hn, hl, Prod.mk.injEq, reduceCtorEq, and_false] at h
  rw [hp] at hz
  simp only [] at hz
  subst hz
  rw [← h.1]
  exact ⟨rfl, rfl, rfl⟩

/-- C8, as the code has it: when `NewConfig` succeeds, `PathPrefix` is "/" if
`<prefix>PATH_PREFIX` is undefined, `Address` and `Target` are empty if their variables
are undefined, `Address` and `Target` equal their variable's value when it is defined,
and `PathPrefix` equals its variable's value when that is defined and not empty; a
`<prefix>PATH_PREFIX` defined as the empty string yields "/". -/
theorem NewConfig_defaults (tn : Options → MpTlsConfig × Option Error)
    (tl : MpTlsConfig → Option TlsConfig × Option Error) (np : Config → Option Error)
    (p : String) (environ : Environment) (c : Config)
    (h : NewConfig ⟨ParseWithOptions, tn, tl, np⟩ ⟨p, environ⟩ = (c, none)) :
    (environ (p ++ "PATH_PREFIX") = none → c.PathPrefix = "/") ∧
    (environ (p ++ "ADDRESS") = none → c.Address = "") ∧
    (environ (p ++ "TARGET") = none → c.Target = "") ∧
    (∀ v, environ (p ++ "ADDRESS") = some v → c.Address = v) ∧
    (∀ v, environ (p ++ "TARGET") = some v → c.Target = v) ∧
    (∀ v, v ≠ "" → environ (p ++ "PATH_PREFIX") = some v → c.PathPrefix = v) ∧
    (environ (p ++ "PATH_PREFIX") = some "" → c.PathPrefix = "/") := by
  obtain ⟨ha, hp, ht⟩ := NewConfig_fields tn tl np ⟨p, environ⟩ c h
  simp only [getOr] at ha hp ht
  refine ⟨?_, ?_, ?_, ?_, ?_, ?_, ?_⟩
  · intro hu; rw [hp, hu]
  · intro hu; rw [ha, hu]
  · intro hu; rw [ht, hu]
  · intro v hv; rw [ha, hv]; by_cases hv0 : v = "" <;> simp [hv0]
  · intro v hv; rw [ht, hv]; by_cases hv0 : v = "" <;> simp [hv0]
  · intro v hne hv; rw [hp, hv]; simp [hne]
  · intro hv; rw [hp, hv]; simp

theorem NewConfig_defaults_witness :
    NewConfig plaintextLib ⟨httpWithoutTLS, sampleEnv⟩ =
      (⟨":8086", "/messages", "http://localhost:8888/", none⟩, none) ∧
    ((noEnv (httpWithoutTLS ++ "PATH_PREFIX") = none →
        (NewConfig plaintextLib ⟨httpWithoutTLS, noEnv⟩).1.PathPrefix = "/") ∧
      (∀ v, v ≠ "" → sampleEnv (httpWithoutTLS ++ "PATH_PREFIX") = some v →
        (⟨":8086", "/messages", "http://localhost:8888/", none⟩ : Config).PathPrefix = v)) :=
  ⟨by decide,
    (NewConfig_defaults plaintextLib.tlsNewConfig plaintextLib.tlsLoad plaintextLib.NewProxy
        httpWithoutTLS noEnv (NewConfig plaintextLib ⟨httpWithoutTLS, noEnv⟩).1 (by decide)).1,
    (NewConfig_defaults plaintextLib.tlsNewConfig plaintextLib.tlsLoad plaintextLib.NewProxy
        httpWithoutTLS sampleEnv ⟨":8086", "/messages", "http://localhost:8888/", none⟩
        (by decide)).2.2.2.2.2.1⟩

/-- C8 as stated fails: with `HERMINA_HTTP_WITHOUT_TLS_PATH_PREFIX` defined as the empty
string, `NewConfig` succeeds and `PathPrefix` is "/", not the variable's value. -/
theorem NewConfig_empty_PATH_PREFIX_counterexample :
    emptyPathEnv (httpWithoutTLS ++ "PATH_PREFIX") = some "" ∧
    NewConfig plaintextLib ⟨httpWithoutTLS, emptyPathEnv⟩ = (⟨"", "/", "", none⟩, none) ∧
    (NewConfig plaintextLib ⟨httpWithoutTLS, emptyPathEnv⟩).1.PathPrefix ≠ "" := by
  decide

/-! ## Bootstrap: theorems -/

theorem startSlot_eq (L : Lib) (environ : Environment) (s : Slot) :
    startSlot L environ s =
      match slotError L environ s with
      | some e => .error e
      | none => .ok (slotTask L environ s) := by
  unfold startSlot slotError slotTask
  rcases h : NewConfig L ⟨s.envPrefix, environ⟩ with ⟨c, _ | e⟩
  · rcases s with ⟨k, p⟩
    cases k <;> cases hp : L.NewProxy c <;> simp [hp]
  · simp

theorem main_eq_startAll (L : Lib) (load : Option Error) (environ : Environment) :
    main L load environ =
      match load with
      | some err => .panic err []
      | none => startAll L environ slots [] := by
  cases load with
  | some e => rfl
  | none =>
    simp only [main, slots, startAll, startSlot]
    rcases NewConfig L ⟨mqttWithoutTLS, environ⟩ with ⟨c1, _ | e1⟩ <;> simp only []
    rcases NewConfig L ⟨mqttWithTLS, environ⟩ with ⟨c2, _ | e2⟩ <;> simp only []
    rcases NewConfig L ⟨mqttWithmTLS, environ⟩ with ⟨c3, _ | e3⟩ <;> simp only []
    rcases NewConfig L ⟨mqttWSWithoutTLS, environ⟩ with ⟨c4, _ | e4⟩ <;> simp only []
    rcases NewConfig L ⟨mqttWSWithTLS, environ⟩ with ⟨c5, _ | e5⟩ <;> simp only []
    rcases NewConfig L ⟨mqttWSWithmTLS, environ⟩ with ⟨c6, _ | e6⟩ <;> simp only []
    rcases NewConfig L ⟨httpWithoutTLS, environ⟩ with ⟨c7, _ | e7⟩ <;> simp only []
    rcases L.NewProxy c7 with _ | e <;> simp only []
    rcases NewConfig L ⟨httpWithTLS, environ⟩ with ⟨c8, _ | e8⟩ <;> simp only []
    rcases L.NewProxy c8 with _ | e <;> simp only []
    rcases NewConfig L ⟨httpWithmTLS, environ⟩ with ⟨c9, _ | e9⟩ <;> simp only []
    rcases L.NewProxy c9 with _ | e <;> simp only []

theorem startAll_ok (L : Lib) (environ : Environment) (ss : List Slot) (g : List Task)
    (h : ∀ s ∈ ss, slotError L environ s = none) :
    startAll L environ ss g =
      .running (g ++ ss.map (slotTask L environ) ++ [Task.StopSignalHandler .group .root]) := by
  induction ss generalizing g with
  | nil => simp [startAll]
  | cons s rest ih =>
    have hs : slotError L environ s = none := h s (List.mem_cons_self _ _)
    rw [startAll, startSlot_eq, hs]
    simp only []
    rw [ih _ (fun t ht => h t (List.mem_cons_of_mem _ ht))]
    simp

theorem startAll_fail (L : Lib) (environ : Environment) (pre post : List Slot) (s : Slot)
    (e : Error) (g : List Task)
    (hpre : ∀ t ∈ pre, slotError L environ t = none) (hs : slotError L environ s = some e) :
    startAll L environ (pre ++ s :: post) g = .panic e (g ++ pre.map (slotTask L environ)) := by
  induction pre generalizing g with
  | nil =>
    simp [startAll, startSlot_eq, hs]
  | cons p rest ih =>
    have hp : slotError L environ p = none := hpre p (List.mem_cons_self _ _)
    rw [List.cons_append, startAll, startSlot_eq, hp]
    simp only []
    rw [ih _ (fun t ht => hpre t (List.mem_cons_of_mem _ ht))]
    simp

theorem main_ok (L : Lib) (environ : Environment)
    (h : ∀ s ∈ slots, slotError L environ s = none) :
    main L none environ =
      .running (slots.map (slotTask L environ) ++ [Task.StopSignalHandler .group .root]) := by
  rw [main_eq_startAll]
  simp only []
  rw [startAll_ok L environ slots [] h]
  simp

theorem main_fail (L : Lib) (environ : Environment) (pre post : List Slot) (s : Slot)
    (e : Error) (hsplit : slots = pre ++ s :: post)
    (hpre : ∀ t ∈ pre, slotError L environ t = none) (hs : slotError L environ s = some e) :
    main L none environ = .panic e (pre.map (slotTask L environ)) := by
  rw [main_eq_startAll]
  simp only []
  rw [hsplit, startAll_fail L environ pre post s e [] hpre hs]
  simp

theorem slotError_none_iff (L : Lib) (environ : Environment) (s : Slot) :
    slotError L environ s = none ↔
      (NewConfig L ⟨s.envPrefix, environ⟩).2 = none ∧
        (s.kind = .http → L.NewProxy (NewConfig L ⟨s.envPrefix, environ⟩).1 = none) := by
  unfold slotError
  rcases h : NewConfig L ⟨s.envPrefix, environ⟩ with ⟨c, _ | e⟩
  · by_cases hk : s.kind = .http <;> simp [hk]
  · simp

/-- C3, as the code has it: if the block of one slot fails (its `NewConfig`, or for an
HTTP slot its `http.NewProxy`, returns an error) while the slots before it succeed,
`main` panics with that error. Only the listeners of the earlier slots were started;
the failing slot, every later slot and `StopSignalHandler` are never registered, and
`g.Wait()` is not reached. This holds whether or not the later slots would succeed. -/
theorem main_config_error_panics (L : Lib) (environ : Environment) (pre post : List Slot)
    (s : Slot) (e : Error) (hsplit : slots = pre ++ s :: post)
    (hpre : ∀ t ∈ pre, slotError L environ t = none)
    (hs : (NewConfig L ⟨s.envPrefix, environ⟩).2 = some e ∨
      ((NewConfig L ⟨s.envPrefix, environ⟩).2 = none ∧ s.kind = .http ∧
        L.NewProxy (NewConfig L ⟨s.envPrefix, environ⟩).1 = some e)) :
    main L none environ = .panic e (pre.map (slotTask L environ)) ∧
    (main L none environ).started.length = pre.length ∧
    Task.StopSignalHandler .group .root ∉ (main L none environ).started := by
  have hse : slotError L environ s = some e := by
    unfold slotError
    rcases hs with h | ⟨h, hk, hp⟩
    · rcases hc : NewConfig L ⟨s.envPrefix, environ⟩ with ⟨c, _ | e1⟩ <;> rw [hc] at h <;>
        simp_all
    · rcases hc : NewConfig L ⟨s.envPrefix, environ⟩ with ⟨c, _ | e1⟩ <;> rw [hc] at h hp <;>
        simp_all
  have hm := main_fail L environ pre post s e hsplit hpre hse
  refine ⟨hm, ?_, ?_⟩
  · rw [hm]; simp [Boot.started]
  · rw [hm]; simp [Boot.started, slotTask]

theorem main_config_error_panics_witness :
    main (failingSlotLib mqttWithTLS) none noEnv =
      .panic ⟨"tls settings"⟩ [Task.Listen .mqtt ⟨"", "/", "", none⟩ .group] ∧
    (main (failingSlotLib mqttWithTLS) none noEnv).started.length = 1 :=
  have h := main_config_error_panics (failingSlotLib mqttWithTLS) noEnv
    [⟨.mqtt, mqttWithoutTLS⟩]
    [⟨.mqtt, mqttWithmTLS⟩, ⟨.websocket, mqttWSWithoutTLS⟩, ⟨.websocket, mqttWSWithTLS⟩,
      ⟨.websocket, mqttWSWithmTLS⟩, ⟨.http, httpWithoutTLS⟩, ⟨.http, httpWithTLS⟩,
      ⟨.http, httpWithmTLS⟩]
    ⟨.mqtt, mqttWithTLS⟩ ⟨"tls settings"⟩ (by decide) (by decide) (Or.inl (by decide))
  ⟨by decide, h.2.1⟩

/-- C3 as stated fails: when only the first slot's configuration fails and the other
eight are fine, `main` panics before any listener is started. -/
theorem main_config_error_counterexample :
    (slots.all fun s =>
      decide (s.envPrefix = mqttWithoutTLS) ||
        (slotError (failingSlotLib mqttWithoutTLS) noEnv s).isNone) = true ∧
    main (failingSlotLib mqttWithoutTLS) none noEnv = .panic ⟨"tls settings"⟩ [] := by
  decide

/-- C5, as the code has it: when `godotenv.Load` and all nine `NewConfig` calls succeed
and `http.NewProxy` accepts the three HTTP configs, `main` registers exactly ten tasks:
three `mqtt` listeners, three `websocket` listeners and three `http` listeners, in that
order, each built from the Config loaded under its own prefix, then one
`StopSignalHandler`. -/
theorem main_registers_ten (L : Lib) (environ : Environment)
    (hcfg : ∀ s ∈ slots, (NewConfig L ⟨s.envPrefix, environ⟩).2 = none)
    (hproxy : ∀ s ∈ slots, s.kind = .http →
      L.NewProxy (NewConfig L ⟨s.envPrefix, environ⟩).1 = none) :
    main L none environ = .running
      [Task.Listen .mqtt (NewConfig L ⟨mqttWithoutTLS, environ⟩).1 .group,
       Task.Listen .mqtt (NewConfig L ⟨mqttWithTLS, environ⟩).1 .group,
       Task.Listen .mqtt (NewConfig L ⟨mqttWithmTLS, environ⟩).1 .group,
       Task.Listen .websocket (NewConfig L ⟨mqttWSWithoutTLS, environ⟩).1 .group,
       Task.Listen .websocket (NewConfig L ⟨mqttWSWithTLS, environ⟩).1 .group,
       Task.Listen .websocket (NewConfig L ⟨mqttWSWithmTLS, environ⟩).1 .group,
       Task.Listen .http (NewConfig L ⟨httpWithoutTLS, environ⟩).1 .group,
       Task.Listen .http (NewConfig L ⟨httpWithTLS, environ⟩).1 .group,
       Task.Listen .http (NewConfig L ⟨httpWithmTLS, environ⟩).1 .group,
       Task.StopSignalHandler .group .root] ∧
    (main L none environ).started.length = 10 := by
  have h : ∀ s ∈ slots, slotError L environ s = none := fun s hs =>
    (slotError_none_iff L environ s).2 ⟨hcfg s hs, hproxy s hs⟩
  have hm := main_ok L environ h
  refine ⟨?_, ?_⟩
  · rw [hm]; rfl
  · rw [hm]; rfl

theorem main_registers_ten_witness :
    (main plaintextLib none sampleEnv).started.length = 10 :=
  (main_registers_ten plaintextLib sampleEnv (by decide) (by decide)).2

/-- C5 as stated fails: all nine configurations load, `http.NewProxy` rejects the first
HTTP config, and `main` panics with six tasks registered and no `StopSignalHandler`. -/
theorem main_registers_ten_counterexample :
    (slots.all fun s => (NewConfig rejectingProxyLib ⟨s.envPrefix, noEnv⟩).2.isNone) = true ∧
    main rejectingProxyLib none noEnv = .panic ⟨"invalid target"⟩
      [Task.Listen .mqtt ⟨"", "/", "", none⟩ .group,
       Task.Listen .mqtt ⟨"", "/", "", none⟩ .group,
       Task.Listen .mqtt ⟨"", "/", "", none⟩ .group,
       Task.Listen .websocket ⟨"", "/", "", none⟩ .group,
       Task.Listen .websocket ⟨"", "/", "", none⟩ .group,
       Task.Listen .websocket ⟨"", "/", "", none⟩ .group] := by
  decide

/-! ## Supervised run: invariants -/

theorem run_nil (s : Sys) : run s [] = s := rfl

theorem run_cons (s : Sys) (e : Event) (es : List Event) :
    run s (e :: es) = run (step s e) es := rfl

theorem run_append (s : Sys) (es fs : List Event) :
    run s (es ++ fs) = run (run s es) fs := by
  simp [run, List.foldl_append]

theorem firstError_append (l : List (Nat × Option Error)) (i : Nat) (r : Option Error) :
    firstError (l ++ [(i, r)]) =
      match firstError l with
      | some e => some e
      | none => r := by
  induction l with
  | nil => cases r <;> rfl
  | cons p rest ih =>
    rcases p with ⟨j, _ | e⟩
    · simpa [firstError] using ih
    · simp [firstError]

theorem firstError_mem (l : List (Nat × Option Error)) (e : Error)
    (h : firstError l = some e) : ∃ i, (i, some e) ∈ l := by
  induction l with
  | nil => simp [firstError] at h
  | cons p rest ih =>
    rcases p with ⟨j, _ | e1⟩
    · simp only [firstError] at h
      obtain ⟨i, hi⟩ := ih h
      exact ⟨i, List.mem_cons_of_mem _ hi⟩
    · simp only [firstError, Option.some.injEq] at h
      subst h
      exact ⟨j, List.mem_cons_self _ _⟩

theorem firstError_none (l : List (Nat × Option Error)) (h : firstError l = none) :
    ∀ p ∈ l, p.2 = none := by
  induction l with
  | nil => simp
  | cons p rest ih =>
    rcases p with ⟨j, _ | e1⟩
    · simp only [firstError] at h
      intro q hq
      rcases List.mem_cons.1 hq with rfl | hq
      · rfl
      · exact ih h q hq
    · simp [firstError] at h

theorem allReturned_getElem (s : Sys) (h : s.allReturned = true) (i : Nat) (t : Task) :
    s.tasks[i]? ≠ some (t, none) := by
  intro hi
  have hm : (t, none) ∈ s.tasks := List.getElem?_mem hi
  have := (List.all_eq_true.1 h) _ hm
  simp at this

/-- The effect of a task return on each field. -/
theorem taskReturn_fields (s : Sys) (i : Nat) (t : Task) (r : Option Error) :
    (s.taskReturn i t r).tasks = s.tasks.set i (t, some r) ∧
    (s.taskReturn i t r).returns = s.returns ++ [(i, r)] ∧
    (s.taskReturn i t r).log = s.log ∧
    (s.taskReturn i t r).c = s.c ∧
    (s.taskReturn i t r).cancelCalls = s.cancelCalls ∧
    (s.taskReturn i t r).rootCancelled = s.rootCancelled ∧
    (s.taskReturn i t r).err = (match s.err with | some e => some e | none => r) ∧
    (s.taskReturn i t r).groupCancelled =
      (s.groupCancelled || (r.isSome && s.err.isNone)) := by
  unfold Sys.taskReturn
  cases r with
  | none => cases hs : s.err <;> simp [hs]
  | some e => cases hs : s.err <;> simp [hs]

/-- A task return preserves the invariant, when the task was running and, if the return
value is an error, the task is a listener. -/
theorem Inv.taskReturn {g : List Task} {s : Sys} (h : Inv g s) (i : Nat) (t : Task)
    (r : Option Error) (hi : s.tasks[i]? = some (t, none))
    (hr : ∀ e, r = some e → ∃ k c ctx, t = Task.Listen k c ctx) :
    Inv g (s.taskReturn i t r) := by
  obtain ⟨ht, hret, hlog, hc, hcc, hroot, herr, hgrp⟩ := taskReturn_fields s i t r
  have hlt : i < s.tasks.length := by
    rcases (List.getElem?_eq_some.1 hi) with ⟨hlt, _⟩
    exact hlt
  have hgi : g[i]? = some t := by
    rw [← h.fst, List.getElem?_map, hi]; rfl
  refine ⟨?_, ?_, ?_, ?_, ?_, ?_, ?_⟩
  · rw [ht, List.map_set]
    simp only []
    rw [← h.fst]
    apply List.ext_getElem? 
    intro j
    by_cases hj : i = j
    · subst hj
      rw [List.getElem?_set_self (by simpa using hlt), List.getElem?_map, hi]; rfl
    · rw [List.getElem?_set_ne hj]
  · rw [herr, hret, firstError_append, h.err]
  · intro j e hj
    rw [hret] at hj
    rcases List.mem_append.1 hj with hj | hj
    · exact h.errs j e hj
    · simp only [List.mem_singleton, Prod.mk.injEq] at hj
      obtain ⟨rfl, rfl⟩ := hj
      obtain ⟨k, c, ctx, rfl⟩ := hr e rfl
      exact ⟨k, c, ctx, hgi⟩
  · rcases h.log with hl | ⟨hall, _⟩
    · left; rw [hlog, hl]
    · exact absurd hi (allReturned_getElem s hall i t)
  · intro j ctx cancel r' hj
    rw [ht] at hj
    by_cases hij : i = j
    · subst hij
      rw [List.getElem?_set_self hlt] at hj
      simp only [Option.some.injEq, Prod.mk.injEq] at hj
      obtain ⟨rfl, rfl⟩ := hj
      cases r with
      | none => rfl
      | some e =>
        obtain ⟨k, c, ctx', hk⟩ := hr e rfl
        cases hk
    · rw [List.getElem?_set_ne hij] at hj
      exact h.nil j ctx cancel r' hj
  · intro hne
    rw [hgrp]
    rw [herr] at hne
    cases hse : s.err with
    | some e =>
      have := h.grp (by rw [hse]; simp)
      simp [this]
    | none =>
      rw [hse] at hne
      cases r with
      | none => simp at hne
      | some e => simp
  · intro hpos
    rw [hroot]
    rw [hcc] at hpos
    exact h.root hpos


theorem Inv.setC {g : List Task} {s : Sys} (h : Inv g s) (c : List Signal) :
    Inv g { s with c := c } :=
  ⟨h.fst, h.err, h.errs, h.log, h.nil, h.grp, h.root⟩

theorem Inv.cancel {g : List Task} {s : Sys} (h : Inv g s) (ctx : Ctx) :
    Inv g (s.cancel ctx) := by
  cases ctx with
  | root => exact ⟨h.fst, h.err, h.errs, h.log, h.nil, h.grp, fun _ => rfl⟩
  | group => exact ⟨h.fst, h.err, h.errs, h.log, h.nil, fun _ => rfl, h.root⟩

theorem Inv.start (g : List Task) : Inv g (Sys.start g) := by
  refine ⟨?_, rfl, ?_, Or.inl rfl, ?_, ?_, ?_⟩
  · simp [Sys.start, Function.comp_def]
  · intro i e h; simp [Sys.start] at h
  · intro i ctx cancel r h
    simp only [Sys.start, List.getElem?_map] at h
    cases hg : g[i]? <;> rw [hg] at h <;> simp at h
  · intro h; exact absurd rfl h
  · intro h; simp [Sys.start] at h

theorem Inv.StopSignalHandler {g : List Task} {s : Sys} (h : Inv g s) (i : Nat)
    (ctx cancel : Ctx) (b : Bool)
    (hi : s.tasks[i]? = some (Task.StopSignalHandler ctx cancel, none)) :
    Inv g (StopSignalHandler s i ctx cancel b) := by
  have hno : ∀ e : Error, (none : Option Error) = some e →
      ∃ k c ctx', Task.StopSignalHandler ctx cancel = Task.Listen k c ctx' := by
    intro e he; cases he
  have hsig : ∀ rest : List Signal,
      Inv g ((({ s with c := rest } : Sys).cancel cancel).taskReturn i
        (Task.StopSignalHandler ctx cancel) none) := by
    intro rest
    apply Inv.taskReturn ((h.setC rest).cancel cancel) i _ none _ hno
    cases cancel <;> exact hi
  unfold Hermina.StopSignalHandler
  split
  · exact h
  · exact h.taskReturn i _ none hi hno
  · exact hsig _
  · split
    · exact hsig _
    · exact h.taskReturn i _ none hi hno

theorem Inv.Listen {g : List Task} {s : Sys} (h : Inv g s) (i : Nat) (err : Option Error) :
    Inv g (Listen s i err) := by
  unfold Hermina.Listen
  split
  · next kind config ctx hi =>
    have hl : ∀ (r : Option Error) (e : Error), r = some e →
        ∃ k c ctx', Task.Listen kind config ctx = Task.Listen k c ctx' :=
      fun _ _ _ => ⟨kind, config, ctx, rfl⟩
    split
    · exact h.taskReturn i _ _ hi (hl _)
    · split
      · exact h.taskReturn i _ _ hi (hl _)
      · exact h
  · exact h

theorem Inv.step {g : List Task} {s : Sys} (h : Inv g s) (e : Event) : Inv g (step s e) := by
  cases e with
  | signal sig =>
    simp only [Hermina.step]
    split
    · exact h.setC _
    · exact h
  | handlerSelect i b =>
    simp only [Hermina.step]
    split
    · next ctx cancel hi => exact h.StopSignalHandler i ctx cancel b hi
    · exact h
  | listenFail i err => exact h.Listen i (some err)
  | listenCancelled i => exact h.Listen i none
  | wait =>
    simp only [Hermina.step]
    split
    · next hc =>
      simp only [Bool.and_eq_true] at hc
      refine ⟨h.fst, h.err, h.errs, Or.inr ⟨hc.1, ?_⟩, h.nil, fun _ => rfl, h.root⟩
      show [terminalLine s.err] = [terminalLine (firstError s.returns)]
      rw [h.err]
    · exact h

theorem Inv.run {g : List Task} {s : Sys} (h : Inv g s) (es : List Event) :
    Inv g (run s es) := by
  induction es generalizing s with
  | nil => exact h
  | cons e rest ih => exact ih (h.step e)


/-! ## Supervised run of `main`: the ten tasks -/

theorem startAll_running (L : Lib) (environ : Environment) (ss : List Slot) (g0 g : List Task)
    (h : startAll L environ ss g0 = .running g) :
    g = g0 ++ ss.map (slotTask L environ) ++ [Task.StopSignalHandler .group .root] := by
  induction ss generalizing g0 with
  | nil =>
    simp only [startAll, Boot.running.injEq] at h
    simp [← h]
  | cons s rest ih =>
    rw [startAll, startSlot_eq] at h
    cases hs : slotError L environ s with
    | some e => rw [hs] at h; simp at h
    | none =>
      rw [hs] at h
      simp only [] at h
      rw [ih _ h]
      simp

theorem main_running (L : Lib) (environ : Environment) (g : List Task)
    (h : main L none environ = .running g) :
    g = slots.map (slotTask L environ) ++ [Task.StopSignalHandler .group .root] := by
  rw [main_eq_startAll] at h
  simp only [] at h
  simpa using startAll_running L environ slots [] g h

theorem main_shape (L : Lib) (environ : Environment) (g : List Task)
    (h : main L none environ = .running g) : Shape g := by
  rw [main_running L environ g h]
  refine ⟨by simp [slots], by simp [slots], ?_⟩
  intro i hi
  interval_cases i <;> simp [slots, slotTask]

theorem Shape.handler_entry {g : List Task} {s : Sys} (hg : Shape g) (h : Inv g s) :
    ∃ r, s.tasks[9]? = some (Task.StopSignalHandler .group .root, r) := by
  have h9 := hg.2.1
  rw [← h.fst, List.getElem?_map] at h9
  cases ht : s.tasks[9]? with
  | none => rw [ht] at h9; simp at h9
  | some p =>
    rw [ht] at h9
    simp only [Option.map_some', Option.some.injEq] at h9
    exact ⟨p.2, by rw [← h9]⟩

theorem Shape.listen_entry {g : List Task} {s : Sys} (hg : Shape g) (h : Inv g s) (i : Nat)
    (hi : i < 9) : ∃ k c r, s.tasks[i]? = some (Task.Listen k c .group, r) := by
  obtain ⟨k, c, hk⟩ := hg.2.2 i hi
  rw [← h.fst, List.getElem?_map] at hk
  cases ht : s.tasks[i]? with
  | none => rw [ht] at hk; simp at hk
  | some p =>
    rw [ht] at hk
    simp only [Option.map_some', Option.some.injEq] at hk
    exact ⟨k, c, p.2, by rw [← hk]⟩

theorem Shape.index {g : List Task} {s : Sys} (hg : Shape g) (h : Inv g s) (i : Nat) (t : Task)
    (r : Option (Option Error)) (hi : s.tasks[i]? = some (t, r)) :
    (i < 9 ∧ ∃ k c, t = Task.Listen k c .group) ∨
      (i = 9 ∧ t = Task.StopSignalHandler .group .root) := by
  have hlen : s.tasks.length = 10 := by
    have := congrArg List.length h.fst
    simpa [hg.1] using this
  have hlt : i < 10 := by
    obtain ⟨hlt, _⟩ := List.getElem?_eq_some.1 hi
    omega
  by_cases h9 : i = 9
  · subst h9
    obtain ⟨r', hr'⟩ := hg.handler_entry h
    rw [hr'] at hi
    simp only [Option.some.injEq, Prod.mk.injEq] at hi
    exact Or.inr ⟨rfl, hi.1.symm⟩
  · have hi9 : i < 9 := by omega
    obtain ⟨k, c, r', hr'⟩ := hg.listen_entry h i hi9
    rw [hr'] at hi
    simp only [Option.some.injEq, Prod.mk.injEq] at hi
    exact Or.inl ⟨hi9, k, c, hi.1.symm⟩

/-- Every step of a run of `main` is of one of six kinds. -/
theorem step_kinds {g : List Task} {s : Sys} (hg : Shape g) (h : Inv g s) (e : Event) :
    step s e = s ∨
    (∃ sig, e = .signal sig ∧ step s e = { s with c := s.c ++ [sig] }) ∨
    (∃ i k c r, i < 9 ∧ s.tasks[i]? = some (Task.Listen k c .group, none) ∧
      (r = none → s.done .group = true) ∧
      step s e = s.taskReturn i (Task.Listen k c .group) r) ∨
    (s.tasks[9]? = some (Task.StopSignalHandler .group .root, none) ∧ s.done .group = true ∧
      (∃ b, e = .handlerSelect 9 b) ∧
      step s e = s.taskReturn 9 (Task.StopSignalHandler .group .root) none) ∨
    (s.tasks[9]? = some (Task.StopSignalHandler .group .root, none) ∧
      (∃ b, e = .handlerSelect 9 b) ∧
      ∃ x rest, s.c = x :: rest ∧
        step s e = ((({ s with c := rest } : Sys).cancel .root).taskReturn 9
          (Task.StopSignalHandler .group .root) none)) ∨
    (s.allReturned = true ∧ s.log = [] ∧
      step s e = { s with groupCancelled := true, log := [terminalLine s.err] }) := by
  cases e with
  | signal sig =>
    simp only [Hermina.step]
    split
    · exact Or.inr (Or.inl ⟨sig, rfl, rfl⟩)
    · exact Or.inl rfl
  | handlerSelect i b =>
    simp only [Hermina.step]
    split
    · next ctx cancel hi =>
      rcases hg.index h i _ _ hi with ⟨_, k, c, hk⟩ | ⟨rfl, ht⟩
      · cases hk
      · cases ht
        unfold Hermina.StopSignalHandler
        split
        · exact Or.inl rfl
        · next hc hd => exact Or.inr (Or.inr (Or.inr (Or.inl ⟨hi, hd, ⟨b, rfl⟩, rfl⟩)))
        · next x rest hc hd =>
          exact Or.inr (Or.inr (Or.inr (Or.inr (Or.inl ⟨hi, ⟨b, rfl⟩, x, rest, hc, rfl⟩))))
        · next x rest hc hd =>
          split
          · exact Or.inr (Or.inr (Or.inr (Or.inr (Or.inl ⟨hi, ⟨b, rfl⟩, x, rest, hc, rfl⟩))))
          · exact Or.inr (Or.inr (Or.inr (Or.inl ⟨hi, hd, ⟨b, rfl⟩, rfl⟩)))
    · exact Or.inl rfl
  | listenFail i err =>
    simp only [Hermina.step, Hermina.Listen]
    split
    · next kind config ctx hi =>
      rcases hg.index h i _ _ hi with ⟨hi9, k, c, hk⟩ | ⟨_, ht⟩
      · cases hk
        exact Or.inr (Or.inr (Or.inl ⟨i, _, _, some err, hi9, hi, by simp, rfl⟩))
      · cases ht
    · exact Or.inl rfl
  | listenCancelled i =>
    simp only [Hermina.step, Hermina.Listen]
    split
    · next kind config ctx hi =>
      rcases hg.index h i _ _ hi with ⟨hi9, k, c, hk⟩ | ⟨_, ht⟩
      · cases hk
        split
        · next hd => exact Or.inr (Or.inr (Or.inl ⟨i, _, _, none, hi9, hi, fun _ => hd, rfl⟩))
        · exact Or.inl rfl
      · cases ht
    · exact Or.inl rfl
  | wait =>
    simp only [Hermina.step]
    split
    · next hc =>
      simp only [Bool.and_eq_true, List.isEmpty_iff] at hc
      exact Or.inr (Or.inr (Or.inr (Or.inr (Or.inr ⟨hc.1, hc.2, rfl⟩))))
    · exact Or.inl rfl


theorem taskReturn_done (s : Sys) (i : Nat) (t : Task) (r : Option Error) (c : Ctx)
    (hd : s.done c = true) : (s.taskReturn i t r).done c = true := by
  obtain ⟨_, _, _, _, _, hroot, _, hgrp⟩ := taskReturn_fields s i t r
  cases c with
  | root => simpa [Sys.done, hroot] using hd
  | group =>
    simp only [Sys.done, Bool.or_eq_true] at hd ⊢
    rw [hroot, hgrp]
    rcases hd with hd | hd
    · exact Or.inl hd
    · right; simp [hd]

theorem step_done {g : List Task} {s : Sys} (hg : Shape g) (h : Inv g s) (e : Event) (c : Ctx)
    (hd : s.done c = true) : (step s e).done c = true := by
  rcases step_kinds hg h e with hs | ⟨sig, _, hs⟩ | ⟨i, k, cf, r, _, _, _, hs⟩ |
    ⟨_, _, _, hs⟩ | ⟨_, _, x, rest, _, hs⟩ | ⟨_, _, hs⟩ <;> rw [hs]
  · exact hd
  · cases c <;> exact hd
  · exact taskReturn_done s i _ r c hd
  · exact taskReturn_done s 9 _ none c hd
  · apply taskReturn_done
    cases c with
    | root => rfl
    | group => simp [Sys.done, Sys.cancel]
  · cases c with
    | root => exact hd
    | group => simp [Sys.done]

theorem run_done {g : List Task} {s : Sys} (hg : Shape g) (h : Inv g s) (es : List Event)
    (c : Ctx) (hd : s.done c = true) : (run s es).done c = true := by
  induction es generalizing s with
  | nil => exact hd
  | cons e rest ih => exact ih (h.step e) (step_done hg h e c hd)

theorem set_keep (l : List (Task × Option (Option Error))) (i j : Nat) (t t' : Task)
    (r : Option Error) (v : Task × Option (Option Error))
    (hi : l[i]? = some (t', none)) (hj : l[j]? = some (t, some r)) :
    (l.set i v)[j]? = some (t, some r) := by
  have hne : i ≠ j := by
    intro hij
    subst hij
    rw [hi] at hj
    simp at hj
  rw [List.getElem?_set_ne hne, hj]

theorem step_returned {g : List Task} {s : Sys} (hg : Shape g) (h : Inv g s) (e : Event)
    (j : Nat) (t : Task) (r : Option Error) (hj : s.tasks[j]? = some (t, some r)) :
    (step s e).tasks[j]? = some (t, some r) := by
  rcases step_kinds hg h e with hs | ⟨sig, _, hs⟩ | ⟨i, k, cf, r', _, hi, _, hs⟩ |
    ⟨hi, _, _, hs⟩ | ⟨hi, _, x, rest, _, hs⟩ | ⟨_, _, hs⟩ <;> rw [hs]
  · exact hj
  · exact hj
  · rw [(taskReturn_fields s i _ r').1]
    exact set_keep _ i j t _ r _ hi hj
  · rw [(taskReturn_fields s 9 _ none).1]
    exact set_keep _ 9 j t _ r _ hi hj
  · rw [(taskReturn_fields _ 9 _ none).1]
    exact set_keep _ 9 j t _ r _ hi hj
  · exact hj

theorem run_returned {g : List Task} {s : Sys} (hg : Shape g) (h : Inv g s) (es : List Event)
    (j : Nat) (t : Task) (r : Option Error) (hj : s.tasks[j]? = some (t, some r)) :
    (run s es).tasks[j]? = some (t, some r) := by
  induction es generalizing s with
  | nil => exact hj
  | cons e rest ih => exact ih (h.step e) (step_returned hg h e j t r hj)

theorem step_cancelCalls {g : List Task} {s : Sys} (hg : Shape g) (h : Inv g s) (e : Event)
    (r : Option Error)
    (hj : s.tasks[9]? = some (Task.StopSignalHandler .group .root, some r)) :
    (step s e).cancelCalls = s.cancelCalls := by
  rcases step_kinds hg h e with hs | ⟨sig, _, hs⟩ | ⟨i, k, cf, r', _, hi, _, hs⟩ |
    ⟨hi, _, _, hs⟩ | ⟨hi, _, x, rest, _, hs⟩ | ⟨_, _, hs⟩
  · rw [hs]
  · rw [hs]
  · rw [hs]; exact (taskReturn_fields s i _ r').2.2.2.2.1
  · rw [hi] at hj; simp at hj
  · rw [hi] at hj; simp at hj
  · rw [hs]

theorem run_cancelCalls {g : List Task} {s : Sys} (hg : Shape g) (h : Inv g s)
    (es : List Event) (r : Option Error)
    (hj : s.tasks[9]? = some (Task.StopSignalHandler .group .root, some r)) :
    (run s es).cancelCalls = s.cancelCalls := by
  induction es generalizing s with
  | nil => rfl
  | cons e rest ih =>
    rw [run_cons, ih (h.step e) (step_returned hg h e 9 _ r hj)]
    exact step_cancelCalls hg h e r hj

theorem getElem?_lt {α : Type} (l : List α) (i : Nat) (a : α) (h : l[i]? = some a) :
    i < l.length := by
  obtain ⟨hlt, _⟩ := List.getElem?_eq_some.1 h
  exact hlt

/-- While the handler is running no cancel has been called; once it has returned the
group context is done and cancel has been called at most once. -/
theorem step_handler {g : List Task} {s : Sys} (hg : Shape g) (h : Inv g s) (e : Event)
    (hrun : s.tasks[9]? = some (Task.StopSignalHandler .group .root, none) → s.cancelCalls = 0)
    (hret : ∀ r, s.tasks[9]? = some (Task.StopSignalHandler .group .root, some r) →
      s.done .group = true ∧ s.cancelCalls ≤ 1) :
    ((step s e).tasks[9]? = some (Task.StopSignalHandler .group .root, none) →
      (step s e).cancelCalls = 0) ∧
    (∀ r, (step s e).tasks[9]? = some (Task.StopSignalHandler .group .root, some r) →
      (step s e).done .group = true ∧ (step s e).cancelCalls ≤ 1) := by
  obtain ⟨r0, hr0⟩ := hg.handler_entry h
  cases r0 with
  | some r0 =>
    have hk := step_returned hg h e 9 _ r0 hr0
    have hc := step_cancelCalls hg h e r0 hr0
    obtain ⟨hd, hle⟩ := hret r0 hr0
    refine ⟨fun hx => ?_, fun r _ => ⟨step_done hg h e .group hd, by rw [hc]; exact hle⟩⟩
    rw [hk] at hx; simp at hx
  | none =>
    have hz := hrun hr0
    rcases step_kinds hg h e with hs | ⟨sig, _, hs⟩ | ⟨i, k, cf, r', hi9, hi, _, hs⟩ |
      ⟨hi, hd, _, hs⟩ | ⟨hi, _, x, rest, _, hs⟩ | ⟨_, _, hs⟩ <;> rw [hs]
    · exact ⟨hrun, hret⟩
    · exact ⟨hrun, hret⟩
    · obtain ⟨ht, _, _, _, hcc, _, _, _⟩ := taskReturn_fields s i (Task.Listen k cf .group) r'
      have h9 : (s.taskReturn i (Task.Listen k cf .group) r').tasks[9]? =
          some (Task.StopSignalHandler .group .root, none) := by
        rw [ht, List.getElem?_set_ne (by omega), hr0]
      refine ⟨fun _ => by rw [hcc]; exact hz, fun r hx => ?_⟩
      rw [h9] at hx; simp at hx
    · obtain ⟨ht, _, _, _, hcc, _, _, _⟩ :=
        taskReturn_fields s 9 (Task.StopSignalHandler .group .root) none
      refine ⟨fun _ => by rw [hcc]; exact hz, fun r _ =>
        ⟨taskReturn_done s 9 _ none .group hd, by rw [hcc, hz]; omega⟩⟩
    · obtain ⟨ht, _, _, _, hcc, _, _, _⟩ :=
        taskReturn_fields (({ s with c := rest } : Sys).cancel .root) 9
          (Task.StopSignalHandler .group .root) none
      have hlt := getElem?_lt _ _ _ hr0
      refine ⟨fun hx => ?_, fun r _ => ⟨?_, ?_⟩⟩
      · rw [ht] at hx
        simp only [Sys.cancel] at hx
        rw [List.getElem?_set_self hlt] at hx
        simp at hx
      · apply taskReturn_done
        simp [Sys.done, Sys.cancel]
      · rw [hcc]
        simp only [Sys.cancel]
        omega
    · exact ⟨hrun, fun r hx => by rw [hr0] at hx; simp at hx⟩

theorem run_snoc (s : Sys) (es : List Event) (e : Event) :
    run s (es ++ [e]) = step (run s es) e := by
  rw [run_append]; rfl

theorem run_handler {g : List Task} (hg : Shape g) (tr : List Event) :
    ((run (Sys.start g) tr).tasks[9]? = some (Task.StopSignalHandler .group .root, none) →
      (run (Sys.start g) tr).cancelCalls = 0) ∧
    (∀ r, (run (Sys.start g) tr).tasks[9]? =
        some (Task.StopSignalHandler .group .root, some r) →
      (run (Sys.start g) tr).done .group = true ∧ (run (Sys.start g) tr).cancelCalls ≤ 1) := by
  induction tr using List.reverseRecOn with
  | nil =>
    refine ⟨fun _ => rfl, fun r hx => ?_⟩
    obtain ⟨r0, hr0⟩ := hg.handler_entry (Inv.start g)
    have : (Sys.start g).tasks[9]? = some (Task.StopSignalHandler .group .root, none) := by
      simp only [Sys.start, List.getElem?_map, hg.2.1]; rfl
    rw [run_nil, this] at hx
    simp at hx
  | append_singleton es e ih =>
    rw [run_snoc]
    exact step_handler hg ((Inv.start g).run es) e ih.1 ih.2

/-- A delivered signal stays in the channel until the handler has returned. -/
theorem step_pending {g : List Task} {s : Sys} (hg : Shape g) (h : Inv g s) (e : Event)
    (hp : s.c ≠ [] ∨ ∃ r, s.tasks[9]? = some (Task.StopSignalHandler .group .root, some r)) :
    (step s e).c ≠ [] ∨
      ∃ r, (step s e).tasks[9]? = some (Task.StopSignalHandler .group .root, some r) := by
  rcases hp with hp | ⟨r, hr⟩
  · rcases step_kinds hg h e with hs | ⟨sig, _, hs⟩ | ⟨i, k, cf, r', hi9, hi, _, hs⟩ |
      ⟨hi, hd, _, hs⟩ | ⟨hi, _, x, rest, _, hs⟩ | ⟨_, _, hs⟩ <;> rw [hs]
    · exact Or.inl hp
    · left; simp
    · left; rw [(taskReturn_fields s i _ r').2.2.2.1]; exact hp
    · left; rw [(taskReturn_fields s 9 _ none).2.2.2.1]; exact hp
    · right
      refine ⟨none, ?_⟩
      rw [(taskReturn_fields _ 9 _ none).1]
      simp only [Sys.cancel]
      rw [List.getElem?_set_self (getElem?_lt _ _ _ hi)]
    · exact Or.inl hp
  · exact Or.inr ⟨r, step_returned hg h e 9 _ r hr⟩

theorem run_pending {g : List Task} {s : Sys} (hg : Shape g) (h : Inv g s) (es : List Event)
    (hp : s.c ≠ [] ∨ ∃ r, s.tasks[9]? = some (Task.StopSignalHandler .group .root, some r)) :
    (run s es).c ≠ [] ∨
      ∃ r, (run s es).tasks[9]? = some (Task.StopSignalHandler .group .root, some r) := by
  induction es generalizing s with
  | nil => exact hp
  | cons e rest ih => exact ih (h.step e) (step_pending hg h e hp)

theorem step_signal_pending (s : Sys) (sig : Signal) : (step s (.signal sig)).c ≠ [] := by
  simp only [Hermina.step]
  split
  · simp
  · next hlen =>
    intro hc
    rw [hc] at hlen
    simp at hlen

/-- Without a signal delivery the channel stays empty and cancel is never called. -/
theorem run_no_signal {g : List Task} (hg : Shape g) (tr : List Event)
    (hns : ∀ e ∈ tr, e.isSignal = false) :
    (run (Sys.start g) tr).c = [] ∧ (run (Sys.start g) tr).cancelCalls = 0 := by
  induction tr using List.reverseRecOn with
  | nil => exact ⟨rfl, rfl⟩
  | append_singleton es e ih =>
    obtain ⟨hc, hz⟩ := ih (fun x hx => hns x (List.mem_append_left _ hx))
    have he : e.isSignal = false := hns e (by simp)
    have h := (Inv.start g).run es
    rw [run_snoc]
    rcases step_kinds hg h e with hs | ⟨sig, hsig, hs⟩ | ⟨i, k, cf, r', hi9, hi, _, hs⟩ |
      ⟨hi, hd, _, hs⟩ | ⟨hi, _, x, rest, hx, hs⟩ | ⟨_, _, hs⟩
    · rw [hs]; exact ⟨hc, hz⟩
    · rw [hsig] at he; simp [Event.isSignal] at he
    · rw [hs]
      obtain ⟨_, _, _, hc', hcc, _, _, _⟩ := taskReturn_fields (run (Sys.start g) es) i
        (Task.Listen k cf .group) r'
      rw [hc', hcc]; exact ⟨hc, hz⟩
    · rw [hs]
      obtain ⟨_, _, _, hc', hcc, _, _, _⟩ := taskReturn_fields (run (Sys.start g) es) 9
        (Task.StopSignalHandler .group .root) none
      rw [hc', hcc]; exact ⟨hc, hz⟩
    · rw [hc] at hx; simp at hx
    · rw [hs]; exact ⟨hc, hz⟩


theorem handler_step_done {g : List Task} {s : Sys} (hg : Shape g) (h : Inv g s) (b : Bool)
    (hd : s.done .group = true) (hb : s.c = [] ∨ b = false) :
    (step s (.handlerSelect 9 b)).tasks[9]? =
        some (Task.StopSignalHandler .group .root, some none) ∧
      (step s (.handlerSelect 9 b)).cancelCalls = s.cancelCalls := by
  obtain ⟨r0, hr0⟩ := hg.handler_entry h
  cases r0 with
  | some r =>
    have hr : r = none := h.nil 9 _ _ r hr0
    subst hr
    exact ⟨step_returned hg h _ 9 _ none hr0, step_cancelCalls hg h _ none hr0⟩
  | none =>
    have hlt := getElem?_lt _ _ _ hr0
    have hst : step s (.handlerSelect 9 b) =
        s.taskReturn 9 (Task.StopSignalHandler .group .root) none := by
      simp only [Hermina.step, hr0]
      unfold Hermina.StopSignalHandler
      rw [hd]
      cases hc : s.c with
      | nil => rfl
      | cons x rest =>
        rcases hb with hb | hb
        · rw [hc] at hb; simp at hb
        · subst hb; rfl
    rw [hst]
    obtain ⟨ht, _, _, _, hcc, _, _, _⟩ :=
      taskReturn_fields s 9 (Task.StopSignalHandler .group .root) none
    exact ⟨by rw [ht, List.getElem?_set_self hlt], hcc⟩

theorem handler_step_signal {s : Sys} (b : Bool)
    (hr0 : s.tasks[9]? = some (Task.StopSignalHandler .group .root, none))
    (hd : s.done .group = false ∨ b = true) (hc : s.c ≠ []) :
    (step s (.handlerSelect 9 b)).tasks[9]? =
        some (Task.StopSignalHandler .group .root, some none) ∧
      (step s (.handlerSelect 9 b)).cancelCalls = s.cancelCalls + 1 := by
  have hlt := getElem?_lt _ _ _ hr0
  cases hcs : s.c with
  | nil => exact absurd hcs hc
  | cons x rest =>
    have hst : step s (.handlerSelect 9 b) =
        (({ s with c := rest } : Sys).cancel .root).taskReturn 9
          (Task.StopSignalHandler .group .root) none := by
      simp only [Hermina.step, hr0]
      unfold Hermina.StopSignalHandler
      rw [hcs]
      cases hdone : s.done .group with
      | false => rfl
      | true =>
        rcases hd with hd | hd
        · rw [hdone] at hd; cases hd
        · subst hd; rfl
    rw [hst]
    obtain ⟨ht, _, _, _, hcc, _, _, _⟩ :=
      taskReturn_fields (({ s with c := rest } : Sys).cancel .root) 9
        (Task.StopSignalHandler .group .root) none
    refine ⟨?_, ?_⟩
    · rw [ht]
      simp only [Sys.cancel]
      rw [List.getElem?_set_self hlt]
    · rw [hcc]; rfl

/-- Whenever a signal is pending or the group context is done, the `select` of the
handler returns nil, whichever ready case it takes. -/
theorem handler_step_returns {g : List Task} {s : Sys} (hg : Shape g) (h : Inv g s) (b : Bool)
    (hready : s.c ≠ [] ∨ s.done .group = true) :
    (step s (.handlerSelect 9 b)).tasks[9]? =
      some (Task.StopSignalHandler .group .root, some none) := by
  obtain ⟨r0, hr0⟩ := hg.handler_entry h
  cases r0 with
  | some r =>
    have hr : r = none := h.nil 9 _ _ r hr0
    subst hr
    exact step_returned hg h _ 9 _ none hr0
  | none =>
    cases hdone : s.done .group with
    | false =>
      rcases hready with hc | hd
      · exact (handler_step_signal b hr0 (Or.inl hdone) hc).1
      · rw [hdone] at hd; cases hd
    | true =>
      by_cases hc : s.c = []
      · exact (handler_step_done hg h b hdone (Or.inl hc)).1
      · cases b with
        | false => exact (handler_step_done hg h false hdone (Or.inr rfl)).1
        | true => exact (handler_step_signal true hr0 (Or.inr rfl) hc).1

/-- C1, as the code has it: in a run of `main`, (1) whenever a signal has been delivered
and the group context is still not done when the `select` of `StopSignalHandler` runs,
then after that `select`, whatever other signals were delivered before, between or
after, cancel has been called exactly once and the handler has returned nil; (2) when
the context is done and no signal has been delivered by the time the `select` runs, the
handler returns nil and cancel is never called; (3) when the `select` runs with a signal
pending or the context done, in particular with both, whichever case it takes the
handler returns nil and the context is done afterwards; (4) in every run cancel is
called at most once and the handler never returns an error. -/
theorem StopSignalHandler_idempotent (L : Lib) (environ : Environment) (g : List Task)
    (hg : main L none environ = .running g) :
    (∀ (pre mid post : List Event) (sig : Signal) (b : Bool),
      (run (Sys.start g) (pre ++ [.signal sig] ++ mid)).done .group = false →
      (run (Sys.start g)
          (pre ++ [.signal sig] ++ mid ++ [.handlerSelect 9 b] ++ post)).cancelCalls = 1 ∧
        (run (Sys.start g)
          (pre ++ [.signal sig] ++ mid ++ [.handlerSelect 9 b] ++ post)).tasks[9]? =
          some (Task.StopSignalHandler .group .root, some none)) ∧
    (∀ (tr post : List Event) (b : Bool), (∀ e ∈ tr, e.isSignal = false) →
      (run (Sys.start g) tr).done .group = true →
      (run (Sys.start g) (tr ++ [.handlerSelect 9 b] ++ post)).cancelCalls = 0 ∧
        (run (Sys.start g) (tr ++ [.handlerSelect 9 b] ++ post)).tasks[9]? =
          some (Task.StopSignalHandler .group .root, some none)) ∧
    (∀ (tr post : List Event) (b : Bool),
      ((run (Sys.start g) tr).c ≠ [] ∨ (run (Sys.start g) tr).done .group = true) →
      (run (Sys.start g) (tr ++ [.handlerSelect 9 b] ++ post)).tasks[9]? =
          some (Task.StopSignalHandler .group .root, some none) ∧
        (run (Sys.start g) (tr ++ [.handlerSelect 9 b] ++ post)).done .group = true) ∧
    (∀ tr : List Event,
      (run (Sys.start g) tr).cancelCalls ≤ 1 ∧
        ∀ r, (run (Sys.start g) tr).tasks[9]? =
            some (Task.StopSignalHandler .group .root, some r) → r = none) := by
  have hs := main_shape L environ g hg
  refine ⟨?_, ?_, ?_, ?_⟩
  · intro pre mid post sig b hd
    have hinv := (Inv.start g).run (pre ++ [.signal sig] ++ mid)
    obtain ⟨r0, hr0⟩ := hs.handler_entry hinv
    have hh := run_handler hs (pre ++ [.signal sig] ++ mid)
    cases r0 with
    | some r =>
      have := (hh.2 r hr0).1
      rw [hd] at this
      cases this
    | none =>
      have hz := hh.1 hr0
      have hpend : (run (Sys.start g) (pre ++ [.signal sig] ++ mid)).c ≠ [] := by
        rw [run_append, run_snoc]
        rcases run_pending hs (((Inv.start g).run pre).step (.signal sig)) mid
          (Or.inl (step_signal_pending _ sig)) with hp | ⟨r, hr⟩
        · exact hp
        · rw [run_append, run_snoc] at hr0
          rw [hr0] at hr
          simp at hr
      obtain ⟨ht, hcc⟩ := handler_step_signal b hr0 (Or.inl hd) hpend
      rw [run_append, run_snoc]
      have hinv2 := hinv.step (.handlerSelect 9 b)
      refine ⟨?_, run_returned hs hinv2 post 9 _ none ht⟩
      rw [run_cancelCalls hs hinv2 post none ht, hcc, hz]
  · intro tr post b hns hd
    have hinv := (Inv.start g).run tr
    obtain ⟨hc, hz⟩ := run_no_signal hs tr hns
    obtain ⟨ht, hcc⟩ := handler_step_done hs hinv b hd (Or.inl hc)
    rw [run_append, run_snoc]
    have hinv2 := hinv.step (.handlerSelect 9 b)
    refine ⟨?_, run_returned hs hinv2 post 9 _ none ht⟩
    rw [run_cancelCalls hs hinv2 post none ht, hcc, hz]
  · intro tr post b hready
    have hinv := (Inv.start g).run tr
    have ht := handler_step_returns hs hinv b hready
    have hfin : (run (Sys.start g) (tr ++ [.handlerSelect 9 b] ++ post)).tasks[9]? =
        some (Task.StopSignalHandler .group .root, some none) := by
      rw [run_append, run_snoc]
      exact run_returned hs (hinv.step (.handlerSelect 9 b)) post 9 _ none ht
    exact ⟨hfin, ((run_handler hs (tr ++ [.handlerSelect 9 b] ++ post)).2 none hfin).1⟩
  · intro tr
    have hinv := (Inv.start g).run tr
    have hh := run_handler hs tr
    obtain ⟨r0, hr0⟩ := hs.handler_entry hinv
    refine ⟨?_, fun r hr => hinv.nil 9 _ _ r hr⟩
    cases r0 with
    | none => rw [hh.1 hr0]; omega
    | some r => exact (hh.2 r hr0).2

theorem StopSignalHandler_idempotent_witness :
    (run (Sys.start defaultTasks) [.signal .SIGINT, .handlerSelect 9 true]).cancelCalls = 1 ∧
    (run (Sys.start defaultTasks)
      [.signal .SIGINT, .signal .SIGINT, .handlerSelect 9 true]).cancelCalls = 1 ∧
    (run (Sys.start defaultTasks)
      [.listenFail 3 ⟨"bind"⟩, .handlerSelect 9 true, .signal .SIGINT]).cancelCalls = 0 ∧
    (run (Sys.start defaultTasks) raceRun).done .group = true :=
  ⟨((StopSignalHandler_idempotent plaintextLib noEnv defaultTasks (by decide)).1
      [] [] [] .SIGINT true (by decide)).1,
    ((StopSignalHandler_idempotent plaintextLib noEnv defaultTasks (by decide)).1
      [] [.signal .SIGINT] [] .SIGINT true (by decide)).1,
    ((StopSignalHandler_idempotent plaintextLib noEnv defaultTasks (by decide)).2.1
      [.listenFail 3 ⟨"bind"⟩] [.signal .SIGINT] true (by decide) (by decide)).1,
    ((StopSignalHandler_idempotent plaintextLib noEnv defaultTasks (by decide)).2.2.1
      [.signal .SIGINT, .listenFail 3 ⟨"bind"⟩] [] false (by decide)).2⟩

/-- C1 as stated fails in the race where a signal is pending and the context is done when
the `select` runs. A signal is delivered while the context is not done, listener 3 then
fails, and the `select` takes `ctx.Done()`: cancel is never called. Listener 3 fails
before any signal arrives, a signal follows, and the `select` takes the signal: cancel
is called. -/
theorem StopSignalHandler_race_counterexample :
    main plaintextLib none noEnv = .running defaultTasks ∧
    (run (Sys.start defaultTasks) [.signal .SIGINT]).done .group = false ∧
    (run (Sys.start defaultTasks) raceRun).cancelCalls = 0 ∧
    (run (Sys.start defaultTasks) [.listenFail 3 ⟨"bind"⟩]).done .group = true ∧
    (run (Sys.start defaultTasks) [.listenFail 3 ⟨"bind"⟩]).c = [] ∧
    (run (Sys.start defaultTasks)
      [.listenFail 3 ⟨"bind"⟩, .signal .SIGINT, .handlerSelect 9 true]).cancelCalls = 1 := by
  decide

theorem listen_step_done {g : List Task} {s : Sys} (hg : Shape g) (h : Inv g s) (i : Nat)
    (hi : i < 9) (hd : s.done .group = true) :
    ∃ t r, (step s (.listenCancelled i)).tasks[i]? = some (t, some r) := by
  obtain ⟨k, c, r0, hr0⟩ := hg.listen_entry h i hi
  cases r0 with
  | some r => exact ⟨_, r, step_returned hg h _ i _ r hr0⟩
  | none =>
    have hlt := getElem?_lt _ _ _ hr0
    have hst : step s (.listenCancelled i) = s.taskReturn i (Task.Listen k c .group) none := by
      simp only [Hermina.step, Hermina.Listen, hr0, hd, if_true]
    rw [hst, (taskReturn_fields s i _ none).1]
    exact ⟨_, none, List.getElem?_set_self hlt⟩

/-- Once the group context is done, letting the first `n` listeners observe it makes
each of them return. -/
theorem drain_listeners {g : List Task} (hg : Shape g) (n : Nat) (hn : n ≤ 9) (s : Sys)
    (h : Inv g s) (hd : s.done .group = true) :
    ∀ i, i < n → ∃ t r,
      (run s ((List.range n).map Event.listenCancelled)).tasks[i]? = some (t, some r) := by
  induction n with
  | zero => intro i hi; omega
  | succ n ih =>
    intro i hi
    rw [List.range_succ, List.map_append, List.map_singleton, run_snoc]
    have hinv := h.run ((List.range n).map Event.listenCancelled)
    have hdn := run_done hg h ((List.range n).map Event.listenCancelled) .group hd
    by_cases hin : i = n
    · subst hin
      exact listen_step_done hg hinv i (by omega) hdn
    · obtain ⟨t, r, htr⟩ := ih (by omega) i (by omega)
      exact ⟨t, r, step_returned hg hinv _ i t r htr⟩

theorem allReturned_of_entries (s : Sys) (hlen : s.tasks.length = 10)
    (h : ∀ i, i < 10 → ∃ t r, s.tasks[i]? = some (t, some r)) : s.allReturned = true := by
  unfold Sys.allReturned
  rw [List.all_eq_true]
  intro x hx
  obtain ⟨n, hn⟩ := List.mem_iff_getElem?.1 hx
  have hlt : n < 10 := by
    have := getElem?_lt _ _ _ hn
    omega
  obtain ⟨t, r, htr⟩ := h n hlt
  rw [htr] at hn
  simp only [Option.some.injEq] at hn
  rw [← hn]
  rfl

theorem Inv.length {g : List Task} {s : Sys} (hg : Shape g) (h : Inv g s) :
    s.tasks.length = 10 := by
  have := congrArg List.length h.fst
  simpa [hg.1] using this

theorem wait_logs {g : List Task} {s : Sys} (h : Inv g s) (ha : s.allReturned = true) :
    (step s .wait).log = [terminalLine (firstError s.returns)] ∧
      (step s .wait).returns = s.returns ∧ (step s .wait).allReturned = true := by
  rcases h.log with hl | ⟨_, hl⟩
  · have hst : step s .wait =
        { s with groupCancelled := true, log := [terminalLine s.err] } := by
      simp [Hermina.step, ha, hl]
    rw [hst]
    exact ⟨by rw [h.err], rfl, ha⟩
  · have hst : step s .wait = s := by
      simp [Hermina.step, ha, hl]
    rw [hst]
    exact ⟨hl, rfl, ha⟩

theorem shutdown_completes {g : List Task} (hg : Shape g) (s : Sys) (h : Inv g s)
    (hd : s.done .group = true) :
    (run s shutdownEvents).allReturned = true ∧
      (run s shutdownEvents).log = [terminalLine (firstError (run s shutdownEvents).returns)] := by
  have hinv1 := h.run ((List.range 9).map Event.listenCancelled)
  have hd1 := run_done hg h ((List.range 9).map Event.listenCancelled) .group hd
  have hl := drain_listeners hg 9 (le_refl 9) s h hd
  obtain ⟨h9, _⟩ := handler_step_done hg hinv1 false hd1 (Or.inr rfl)
  have hinv2 := hinv1.step (.handlerSelect 9 false)
  have hall : (step (run s ((List.range 9).map Event.listenCancelled))
      (.handlerSelect 9 false)).allReturned = true := by
    apply allReturned_of_entries _ (hinv2.length hg)
    intro i hi
    by_cases hi9 : i = 9
    · subst hi9; exact ⟨_, _, h9⟩
    · obtain ⟨t, r, htr⟩ := hl i (by omega)
      exact ⟨t, r, step_returned hg hinv1 _ i t r htr⟩
  have hrun : run s shutdownEvents =
      step (step (run s ((List.range 9).map Event.listenCancelled))
        (.handlerSelect 9 false)) .wait := by
    unfold shutdownEvents
    rw [run_append, run_cons, run_cons, run_nil]
  rw [hrun]
  obtain ⟨hlog, hret, ha⟩ := wait_logs hinv2 hall
  exact ⟨ha, by rw [hlog, hret]⟩

/-- C2: in a run of `main` the nine listeners and `StopSignalHandler` are all given the
same context, the group context, and the handler is given the root CancelFunc. That
context is done as soon as the handler has called cancel, and as soon as any task has
returned a non-nil error. Once it is done, the `select` of `StopSignalHandler` returns
nil without consuming a signal or calling cancel when none is pending, and when each
listener returns on the cancelled context, every task has returned and `g.Wait()`
returns. -/
theorem root_cancellation_reaches_all (L : Lib) (environ : Environment) (g : List Task)
    (hg : main L none environ = .running g) (tr : List Event) :
    (g.length = 10 ∧ (∀ i, i < 9 → ∃ k c, g[i]? = some (Task.Listen k c .group)) ∧
      g[9]? = some (Task.StopSignalHandler .group .root)) ∧
    (0 < (run (Sys.start g) tr).cancelCalls → (run (Sys.start g) tr).done .group = true) ∧
    (∀ i e, (i, some e) ∈ (run (Sys.start g) tr).returns →
      (run (Sys.start g) tr).done .group = true) ∧
    (∀ b, (run (Sys.start g) tr).done .group = true → (run (Sys.start g) tr).c = [] →
      (step (run (Sys.start g) tr) (.handlerSelect 9 b)).tasks[9]? =
          some (Task.StopSignalHandler .group .root, some none) ∧
        (step (run (Sys.start g) tr) (.handlerSelect 9 b)).cancelCalls =
          (run (Sys.start g) tr).cancelCalls) ∧
    ((run (Sys.start g) tr).done .group = true →
      (run (Sys.start g) (tr ++ shutdownEvents)).allReturned = true ∧
        (run (Sys.start g) (tr ++ shutdownEvents)).log.length = 1) := by
  have hs := main_shape L environ g hg
  have hinv := (Inv.start g).run tr
  refine ⟨⟨hs.1, hs.2.2, hs.2.1⟩, ?_, ?_, ?_, ?_⟩
  · intro hpos
    simp [Sys.done, hinv.root hpos]
  · intro i e hmem
    have hne : (run (Sys.start g) tr).err ≠ none := by
      rw [hinv.err]
      intro hnone
      have := firstError_none _ hnone _ hmem
      simp at this
    simp [Sys.done, hinv.grp hne]
  · intro b hd hc
    exact handler_step_done hs hinv b hd (Or.inl hc)
  · intro hd
    rw [run_append]
    obtain ⟨ha, hl⟩ := shutdown_completes hs _ hinv hd
    exact ⟨ha, by rw [hl]; rfl⟩

theorem root_cancellation_reaches_all_witness :
    (run (Sys.start defaultTasks) [.listenFail 3 ⟨"bind"⟩]).done .group = true ∧
    (run (Sys.start defaultTasks) ([.listenFail 3 ⟨"bind"⟩] ++ shutdownEvents)).allReturned
      = true ∧
    (run (Sys.start defaultTasks) ([.listenFail 3 ⟨"bind"⟩] ++ shutdownEvents)).log.length
      = 1 :=
  ⟨by decide,
    (root_cancellation_reaches_all plaintextLib noEnv defaultTasks (by decide)
      [.listenFail 3 ⟨"bind"⟩]).2.2.2.2 (by decide)⟩

/-- C7: in a run of `main` with all ten tasks registered, at most one status line is ever
logged, and only once every task has returned; it is the line `g.Wait()` yields as soon
as all tasks have returned: the error line of the first non-nil error in the order the
tasks returned, or the clean-stop line when every task returned nil. The reported error
was returned by one of the nine listeners, since `StopSignalHandler` returns nil. -/
theorem main_terminal_status (L : Lib) (environ : Environment) (g : List Task)
    (hg : main L none environ = .running g) (tr : List Event) :
    (run (Sys.start g) tr).log.length ≤ 1 ∧
    ((run (Sys.start g) tr).log ≠ [] →
      (run (Sys.start g) tr).allReturned = true ∧
        (run (Sys.start g) tr).log =
          [terminalLine (firstError (run (Sys.start g) tr).returns)]) ∧
    ((run (Sys.start g) tr).allReturned = true →
      (run (Sys.start g) (tr ++ [.wait])).log =
        [terminalLine (firstError (run (Sys.start g) tr).returns)]) ∧
    (∀ e, firstError (run (Sys.start g) tr).returns = some e →
      terminalLine (firstError (run (Sys.start g) tr).returns) =
          .Error ("hermina service terminated with error: " ++ e.msg) ∧
        ∃ i, i < 9 ∧ (i, some e) ∈ (run (Sys.start g) tr).returns) ∧
    (firstError (run (Sys.start g) tr).returns = none →
      terminalLine (firstError (run (Sys.start g) tr).returns) =
          .Info "hermina service stopped" ∧
        ∀ p ∈ (run (Sys.start g) tr).returns, p.2 = none) ∧
    (∀ r, (run (Sys.start g) tr).tasks[9]? =
        some (Task.StopSignalHandler .group .root, some r) → r = none) := by
  have hs := main_shape L environ g hg
  have hinv := (Inv.start g).run tr
  refine ⟨?_, ?_, ?_, ?_, ?_, ?_⟩
  · rcases hinv.log with hl | ⟨_, hl⟩ <;> rw [hl] <;> simp
  · intro hne
    rcases hinv.log with hl | ⟨ha, hl⟩
    · exact absurd hl hne
    · exact ⟨ha, hl⟩
  · intro ha
    rw [run_snoc]
    rcases hinv.log with hl | ⟨_, hl⟩
    · simp [Hermina.step, ha, hl, hinv.err]
    · simp [Hermina.step, ha, hl]
  · intro e he
    refine ⟨by rw [he]; rfl, ?_⟩
    obtain ⟨i, hi⟩ := firstError_mem _ e he
    obtain ⟨k, c, ctx, hk⟩ := hinv.errs i e hi
    refine ⟨i, ?_, hi⟩
    have hlt : i < g.length := getElem?_lt _ _ _ hk
    rw [hs.1] at hlt
    by_contra hge
    have h9 : i = 9 := by omega
    subst h9
    rw [hs.2.1] at hk
    simp at hk
  · intro hn
    exact ⟨by rw [hn]; rfl, firstError_none _ hn⟩
  · intro r hr
    exact hinv.nil 9 _ _ r hr

theorem main_terminal_status_witness :
    (run (Sys.start defaultTasks) failingRun).log =
      [.Error "hermina service terminated with error: bind"] ∧
    (run (Sys.start defaultTasks) failingRun).allReturned = true := by
  have h := main_terminal_status plaintextLib noEnv defaultTasks (by decide) failingRun
  exact ⟨by rfl, (h.2.1 (by decide)).1⟩

theorem first_failure (L : Lib) (environ : Environment) (ss : List Slot)
    (h : ¬ ∀ t ∈ ss, slotError L environ t = none) :
    ∃ pre f post e, ss = pre ++ f :: post ∧ (∀ t ∈ pre, slotError L environ t = none) ∧
      slotError L environ f = some e := by
  induction ss with
  | nil => exact absurd (fun t ht => by simp at ht) h
  | cons s rest ih =>
    cases hs : slotError L environ s with
    | some e => exact ⟨[], s, rest, e, rfl, by simp, hs⟩
    | none =>
      have hrest : ¬ ∀ t ∈ rest, slotError L environ t = none := by
        intro hr
        apply h
        intro t ht
        rcases List.mem_cons.1 ht with rfl | ht
        · exact hs
        · exact hr t ht
      obtain ⟨pre, f, post, e, hsp, hpre, hf⟩ := ih hrest
      refine ⟨s :: pre, f, post, e, by rw [hsp]; rfl, ?_, hf⟩
      intro t ht
      rcases List.mem_cons.1 ht with rfl | ht
      · exact hs
      · exact hpre t ht

/-! ## Slots and configuration presence -/

theorem getElem?_map_mid {α β : Type} (f : α → β) (pre : List α) (b : β) (rest : List β) :
    (pre.map f ++ b :: rest)[pre.length]? = some b := by
  rw [List.getElem?_append_right (by simp)]
  simp

theorem started_panic_short (L : Lib) (environ : Environment) (e : Error) (pre : List Slot)
    (n : Nat) (t : Task) (hm : main L none environ = .panic e (pre.map (slotTask L environ)))
    (hn : pre.length ≤ n) (h : (main L none environ).started[n]? = some t) : False := by
  rw [hm] at h
  have := getElem?_lt _ _ _ h
  simp only [Boot.started, List.length_map] at this
  omega

/-- C6, as the code has it: no slot is switched on or off by the presence of
configuration. The listener of a slot is started exactly when `NewConfig` (and for an
HTTP slot `http.NewProxy`) succeeds for that slot and for every slot before it, so a
failure in one slot keeps all later slots from starting; and under a prefix with no
variable defined the environment parse succeeds with the default Config (empty Address,
PathPrefix "/", empty Target), so such a slot is started like any other. -/
theorem main_starts_slot_iff (L : Lib) (environ : Environment) (pre post : List Slot)
    (s : Slot) (hsplit : slots = pre ++ s :: post) :
    ((main L none environ).started[pre.length]? = some (slotTask L environ s) ↔
      ∀ t ∈ pre ++ [s], slotError L environ t = none) ∧
    (∀ p : String, (∀ key : String, environ (p ++ key) = none) →
      ParseWithOptions Config.zero ⟨p, environ⟩ = (⟨"", "/", "", none⟩, none)) := by
  refine ⟨?_, ?_⟩
  · by_cases hall : ∀ t ∈ slots, slotError L environ t = none
    · have hm := main_ok L environ hall
      constructor
      · intro _ t ht
        apply hall t
        rw [hsplit]
        rcases List.mem_append.1 ht with h | h
        · exact List.mem_append_left _ h
        · rw [List.mem_singleton] at h
          subst h
          exact List.mem_append_right _ (List.mem_cons_self _ _)
      · intro _
        rw [hm, hsplit]
        simp only [Boot.started, List.map_append, List.map_cons, List.append_assoc,
          List.cons_append]
        exact getElem?_map_mid _ _ _ _
    · obtain ⟨pre', f, post', e, hsp, hpre', hf⟩ := first_failure L environ slots hall
      have hm := main_fail L environ pre' post' f e hsp hpre' hf
      rw [hsplit] at hsp
      rcases List.append_eq_append_iff.1 hsp with ⟨a, ha, hb⟩ | ⟨c, hc, hd⟩
      · cases a with
        | nil =>
          simp only [List.nil_append, List.cons.injEq] at hb
          simp only [List.append_nil] at ha
          subst ha
          obtain ⟨rfl, _⟩ := hb
          constructor
          · intro h
            exact (started_panic_short L environ e _ _ _ hm (le_refl _) h).elim
          · intro h
            have := h s (by simp)
            rw [hf] at this
            cases this
        | cons x a =>
          simp only [List.cons_append, List.cons.injEq] at hb
          obtain ⟨rfl, _⟩ := hb
          subst ha
          constructor
          · intro _ t ht
            apply hpre' t
            rcases List.mem_append.1 ht with h | h
            · exact List.mem_append_left _ h
            · rw [List.mem_singleton] at h
              subst h
              exact List.mem_append_right _ (List.mem_cons_self _ _)
          · intro _
            rw [hm]
            simp only [Boot.started, List.map_append, List.map_cons]
            exact getElem?_map_mid _ _ _ _
      · cases c with
        | nil =>
          simp only [List.nil_append, List.cons.injEq] at hd
          simp only [List.append_nil] at hc
          subst hc
          obtain ⟨rfl, _⟩ := hd
          constructor
          · intro h
            exact (started_panic_short L environ e _ _ _ hm (le_refl _) h).elim
          · intro h
            have := h f (by simp)
            rw [hf] at this
            cases this
        | cons x c =>
          simp only [List.cons_append, List.cons.injEq] at hd
          obtain ⟨rfl, _⟩ := hd
          subst hc
          constructor
          · intro h
            exact (started_panic_short L environ e _ _ _ hm (by simp) h).elim
          · intro h
            have := h f (by simp)
            rw [hf] at this
            cases this
  · intro p hp
    have h0 : environ p = none := by
      have := hp ""
      simpa using this
    have h1 := hp "ADDRESS"
    have h2 := hp "PATH_PREFIX"
    have h3 := hp "TARGET"
    simp [ParseWithOptions, getOr, setField, h0, h1, h2, h3, Config.zero]

theorem main_starts_slot_iff_witness :
    (main plaintextLib none noEnv).started[1]? =
      some (slotTask plaintextLib noEnv ⟨.mqtt, mqttWithTLS⟩) :=
  ((main_starts_slot_iff plaintextLib noEnv [⟨.mqtt, mqttWithoutTLS⟩]
    [⟨.mqtt, mqttWithmTLS⟩, ⟨.websocket, mqttWSWithoutTLS⟩, ⟨.websocket, mqttWSWithTLS⟩,
      ⟨.websocket, mqttWSWithmTLS⟩, ⟨.http, httpWithoutTLS⟩, ⟨.http, httpWithTLS⟩,
      ⟨.http, httpWithmTLS⟩]
    ⟨.mqtt, mqttWithTLS⟩ (by decide)).1).2 (by decide)

/-- C6 as stated fails: with no variable defined under any prefix, all nine listeners
are started. -/
theorem main_starts_unconfigured_counterexample :
    noEnv = (fun _ => none) ∧ main plaintextLib none noEnv = .running defaultTasks ∧
    defaultTasks.length = 10 :=
  ⟨rfl, by decide, by decide⟩

/-! ## The interception hook -/

theorem pump_append {P : Type} (continueOnVeto : Bool) (encode : P → List Nat)
    (ic : Interceptor P) (dir : Direction) (pre rest : List P) (dest : List Nat)
    (h : (pump continueOnVeto encode ic dir pre dest).2 = none) :
    pump continueOnVeto encode ic dir (pre ++ rest) dest =
      pump continueOnVeto encode ic dir rest (pump continueOnVeto encode ic dir pre dest).1 := by
  induction pre generalizing dest with
  | nil => rfl
  | cons p ps ih =>
    rw [List.cons_append]
    rcases hic : ic p dir with ⟨_ | out, _ | err⟩
    · simp only [pump, hic] at h ⊢
      exact ih dest h
    · cases continueOnVeto with
      | true =>
        simp only [pump, hic, if_true] at h ⊢
        exact ih dest h
      | false => simp [pump, hic] at h
    · simp only [pump, hic] at h ⊢
      exact ih _ h
    · cases continueOnVeto with
      | true =>
        simp only [pump, hic, if_true] at h ⊢
        exact ih dest h
      | false => simp [pump, hic] at h

/-- C4: for every packet of a stream, at whatever position, and every direction: if the
pump has not ended before the packet and `Intercept` returns a packet and a nil error,
the pump writes exactly the encoding of the returned packet after what it had written
before (the re-encoding of the original when that is what was returned) and goes on with
the rest of the stream from there; if `Intercept` returns an error, nothing is written
for the packet: the pump goes on from the unchanged destination, or ends there with
that error. -/
theorem pump_follows_interceptor {P : Type} (continueOnVeto : Bool) (encode : P → List Nat)
    (ic : Interceptor P) (dir : Direction) (pre post : List P) (pkt : P) (dest : List Nat)
    (hreach : (pump continueOnVeto encode ic dir pre dest).2 = none) :
    (∀ out, ic pkt dir = (some out, none) →
      pump continueOnVeto encode ic dir (pre ++ pkt :: post) dest =
          pump continueOnVeto encode ic dir post
            ((pump continueOnVeto encode ic dir pre dest).1 ++ encode out) ∧
        pump continueOnVeto encode ic dir (pre ++ [pkt]) dest =
          ((pump continueOnVeto encode ic dir pre dest).1 ++ encode out, none)) ∧
    (ic pkt dir = (some pkt, none) →
      pump continueOnVeto encode ic dir (pre ++ [pkt]) dest =
        ((pump continueOnVeto encode ic dir pre dest).1 ++ encode pkt, none)) ∧
    (∀ r err, ic pkt dir = (r, some err) →
      pump continueOnVeto encode ic dir (pre ++ pkt :: post) dest =
          (if continueOnVeto then
            pump continueOnVeto encode ic dir post (pump continueOnVeto encode ic dir pre dest).1
          else ((pump continueOnVeto encode ic dir pre dest).1, some err)) ∧
        (pump continueOnVeto encode ic dir (pre ++ [pkt]) dest).1 =
          (pump continueOnVeto encode ic dir pre dest).1) := by
  refine ⟨?_, ?_, ?_⟩
  · intro out h
    rw [pump_append _ _ _ _ pre (pkt :: post) dest hreach,
      pump_append _ _ _ _ pre [pkt] dest hreach]
    simp [pump, h]
  · intro h
    rw [pump_append _ _ _ _ pre [pkt] dest hreach]
    simp [pump, h]
  · intro r err h
    rw [pump_append _ _ _ _ pre (pkt :: post) dest hreach,
      pump_append _ _ _ _ pre [pkt] dest hreach]
    cases continueOnVeto <;> simp [pump, h]

theorem pump_follows_interceptor_witness :
    pump true (fun n : Nat => [n, n]) vetoOdd .Upstream ([3] ++ 4 :: [6]) [9] =
      pump true (fun n : Nat => [n, n]) vetoOdd .Upstream [6] [9, 5, 5] ∧
    pump true (fun n : Nat => [n, n]) vetoOdd .Upstream [3, 4, 6] [9] = ([9, 5, 5, 7, 7], none) ∧
    (pump false (fun n : Nat => [n, n]) vetoOdd .Upstream ([4] ++ 3 :: [6]) [9]) =
      ([9, 5, 5], some ⟨"odd"⟩) := by
  have h1 := (pump_follows_interceptor true (fun n : Nat => [n, n]) vetoOdd .Upstream
    [3] [6] 4 [9] (by decide)).1 5 (by decide)
  have h2 := (pump_follows_interceptor false (fun n : Nat => [n, n]) vetoOdd .Upstream
    [4] [6] 3 [9] (by decide)).2.2 (some 3) ⟨"odd"⟩ (by decide)
  exact ⟨h1.1, by decide, h2.1⟩

end Hermina
